import Mathlib

/-!
Shallow embedding of the clide command-line option parser
(`src/index.ts`, `src/types.ts` of the imlokesh/clide repository).

Conventions of the embedding:
* TypeScript `Record<string, T>` objects are modelled as association lists
  `List (String × T)` in insertion order (`Object.entries` order); property
  assignment is `recordSet` (update in place, append when new), property read
  is `recordGet` (first match).
* JavaScript strings are Lean `String`s; the handful of string methods the
  source uses (`toLowerCase`, `slice`, `startsWith`, `indexOf`, `split("")`)
  are modelled on the ASCII range over `String.data`.
* JavaScript numbers are modelled as `Int`: `Number(s)` coercion is
  `parseNumber`, restricted to (whitespace-trimmed, optionally signed) decimal
  integer literals, with `Number("") = 0` and `NaN ↦ none`. No claim in this
  development depends on non-integer numerics.
* `undefined` is `Option.none`; JavaScript truthiness of an optional string is
  `optStrTruthy` (a string is falsy exactly when empty).
* Thrown `Error`s are `Except.error` carrying the message; `process.exit` and
  console output are collapsed into the `ParseOutcome` constructors.
* The asynchronous prompt collaborator is modelled as a pure function giving
  the value its awaited call returns; the interactive default prompt (stdin,
  timeout) is outside the embedding and enters only as an opaque function
  argument.
-/

namespace Clide

/-- Character-level lower-casing as JavaScript `toLowerCase` acts on ASCII. -/
def jsToLowerChar (c : Char) : Char :=
  if 'A' ≤ c ∧ c ≤ 'Z' then Char.ofNat (c.toNat + 32) else c

/-- JavaScript `String.prototype.toLowerCase`, modelled on the ASCII range. -/
def jsToLower (s : String) : String :=
  ⟨s.data.map jsToLowerChar⟩

/-- JavaScript `String.prototype.startsWith`. -/
def strStartsWith (s p : String) : Bool :=
  p.data.isPrefixOf s.data

/-- JavaScript `String.prototype.slice(n)` for a non-negative start index. -/
def strDrop (s : String) (n : Nat) : String :=
  ⟨s.data.drop n⟩

/-- JavaScript `String.prototype.slice(0, n)` for a non-negative end index. -/
def strTake (s : String) (n : Nat) : String :=
  ⟨s.data.take n⟩

/-- Index of the first list element satisfying `p` (JavaScript `indexOf`,
with `none` standing for `-1`). -/
def findIdxA {α : Type} (p : α → Bool) : List α → Option Nat
  | [] => none
  | a :: l => if p a then some 0 else (findIdxA p l).map (· + 1)

/-- JavaScript `Array.prototype.slice` index normalisation: negative indices
count from the end, clamped to `[0, len]`. -/
def jsSliceIdx (len : Nat) (i : Int) : Nat :=
  if i < 0 then ((len : Int) + i).toNat else min i.toNat len

/-- JavaScript `arr.slice(s)`. -/
def jsSliceFrom {α : Type} (l : List α) (s : Int) : List α :=
  l.drop (jsSliceIdx l.length s)

/-- JavaScript `arr.slice(0, e)`. -/
def jsSliceTo {α : Type} (l : List α) (e : Int) : List α :=
  l.take (jsSliceIdx l.length e)

/-- Property read on a `Record<string, V>` object: first binding wins. -/
def recordGet {V : Type} : List (String × V) → String → Option V
  | [], _ => none
  | (k, v) :: rest, key => if k = key then some v else recordGet rest key

/-- Property assignment on a `Record<string, V>` object: update an existing
key in place, append a new key. -/
def recordSet {V : Type} : List (String × V) → String → V → List (String × V)
  | [], key, v => [(key, v)]
  | (k, w) :: rest, key, v =>
    if k = key then (key, v) :: rest else (k, w) :: recordSet rest key v

/-- JavaScript `Array.prototype.includes` on string arrays. -/
def listHas (l : List String) (s : String) : Bool :=
  l.any (fun x => x = s)

/-- JavaScript truthiness of a possibly-undefined string: `undefined` and the
empty string are falsy. -/
def optStrTruthy : Option String → Bool
  | none => false
  | some s => s ≠ ""

/-- Whitespace recognised when trimming a numeric literal. -/
def isWsChar (c : Char) : Bool :=
  c = ' ' ∨ c = '\t' ∨ c = '\n' ∨ c = '\r'

/-- Decimal digit value. -/
def digitVal (c : Char) : Option Nat :=
  if '0' ≤ c ∧ c ≤ '9' then some (c.toNat - '0'.toNat) else none

/-- Accumulating decimal parse; fails on any non-digit. -/
def parseDigitsGo : Nat → List Char → Option Nat
  | acc, [] => some acc
  | acc, c :: rest =>
    match digitVal c with
    | some d => parseDigitsGo (acc * 10 + d) rest
    | none => none

/-- Nonempty all-digit parse. -/
def parseDigits : List Char → Option Nat
  | [] => none
  | l => parseDigitsGo 0 l

/-- JavaScript `Number(s)` coercion, restricted to decimal integer literals:
surrounding whitespace is trimmed, the empty string is `0`, an optional sign
is honoured, and anything else is `NaN` (`none`). -/
def parseNumber (s : String) : Option Int :=
  let t := ((s.data.dropWhile isWsChar).reverse.dropWhile isWsChar).reverse
  match t with
  | [] => some 0
  | '-' :: rest => (parseDigits rest).map (fun n => -(n : Int))
  | '+' :: rest => (parseDigits rest).map (fun n => (n : Int))
  | _ => (parseDigits t).map (fun n => (n : Int))

/-- Substring test (used only to state counterexamples about error messages). -/
def strContainsStr (needle hay : String) : Bool :=
  (List.range (hay.data.length + 1)).any (fun i => needle.data.isPrefixOf (hay.data.drop i))

/-- The `type` discriminant of an option descriptor. -/
inductive OptionType where
  | string
  | number
  | boolean
deriving DecidableEq

/-- A resolved option value (`ClideOptionValue = string | number | boolean`). -/
inductive ClideValue where
  | str (s : String)
  | num (n : Int)
  | bool (b : Bool)
deriving DecidableEq

/-- Result of a custom `validate` callback (`boolean | string`). -/
inductive BoolOrString where
  | bool (b : Bool)
  | str (s : String)

/-- Truth of a runtime type test `typeof v === "boolean"`. -/
def isBoolVal : ClideValue → Bool
  | .bool _ => true
  | _ => false

/-- Truth of a runtime type test `typeof v === "number"`. -/
def isNumVal : ClideValue → Bool
  | .num _ => true
  | _ => false

/-- Truth of a runtime type test `typeof v === "string"`. -/
def isStrVal : ClideValue → Bool
  | .str _ => true
  | _ => false

/-- Truth of whether the declared value matches the declared option type. -/
def valueHasType (v : ClideValue) (t : OptionType) : Bool :=
  match v, t with
  | .str _, .string => true
  | .num _, .number => true
  | .bool _, .boolean => true
  | _, _ => false

/-- JavaScript template-literal stringification of an option value. -/
def showValue : ClideValue → String
  | .str s => s
  | .num n => toString n
  | .bool b => if b then "true" else "false"

/-- JavaScript truthiness of an option value. -/
def valueTruthy : ClideValue → Bool
  | .str s => s ≠ ""
  | .num n => n ≠ 0
  | .bool b => b

/-- JavaScript truthiness of a possibly-undefined option value. -/
def valueTruthyOpt : Option ClideValue → Bool
  | none => false
  | some v => valueTruthy v

/-- An option descriptor (`ClideOption` of `types.ts`), with the per-type
fields merged into one record: `choices`/`validate` exist for string and
number options, `negatable` for boolean options, exactly as the source code
reads them dynamically. -/
structure ClideOption where
  type : OptionType
  short : Option String := none
  required : Bool := false
  env : Option String := none
  description : Option String := none
  hidden : Bool := false
  default : Option ClideValue := none
  choices : Option (List ClideValue) := none
  validate : Option (ClideValue → BoolOrString) := none
  negatable : Bool := false

/-- A command descriptor (`ClideCommand`); an absent `options` record is
modelled by the empty list, matching the pervasive `?? {}` access. -/
structure ClideCommand where
  description : Option String := none
  options : List (String × ClideOption) := []

/-- Scope tag of a resolved option (`OptionScope` minus `undefined`, which is
represented by wrapping in `Option`). -/
inductive OptionScope where
  | global
  | command
deriving DecidableEq

/-- The parsed output (`ClideProgram`). -/
structure ClideProgram where
  command : Option String := none
  commandOptions : List (String × ClideValue) := []
  globalOptions : List (String × ClideValue) := []
  isDefaultCommand : Bool := false
  options : List (String × ClideValue) := []
  positionals : Option (List String) := none
deriving DecidableEq

/-- The prompt collaborator, as the pure value its awaited call returns. -/
def PromptFn : Type :=
  String → ClideOption → Option OptionScope → ClideProgram → ClideValue

/-- The root configuration (`ClideConfig`). `throwOnError` is declared in
`types.ts` and documented in the README but, notably, never read by
`index.ts`; it is carried here so that statements about it can be made. -/
structure ClideConfig where
  name : Option String := none
  allowPositionals : Bool := false
  commands : List (String × ClideCommand) := []
  defaultCommand : Option String := none
  description : Option String := none
  disableHelp : Bool := false
  disablePrompts : Bool := false
  options : List (String × ClideOption) := []
  promptAsync : Option PromptFn := none
  throwOnError : Bool := false

/-- The two argument segments produced by the splitter (`ParsedArgs`). -/
structure ParsedArgs where
  programArgs : List String := []
  commandArgs : List String := []
deriving DecidableEq

/-- The read-only per-instance state of a `ClideParser` after construction:
the (copied, help-injected) configuration, the argument and environment
inputs, the truthy/falsy literal sets, the short-flag lookup maps built by
validation, and the scopes whose help option was auto-injected. -/
structure ParserCtx where
  config : ClideConfig
  args : List String := []
  env : List (String × String) := []
  truthyValues : List String := ["true", "yes", "1"]
  falsyValues : List String := ["false", "no", "0"]
  globalShortsMap : List (String × String) := []
  commandShortsMap : List (String × List (String × String)) := []
  systemHelpScopes : List String := []

/-- The constructor's named-argument object. -/
structure ClideInit where
  config : ClideConfig
  args : List String := []
  env : List (String × String) := []
  truthyValues : Option (List String) := none
  falsyValues : Option (List String) := none

/-- Result triple of `ClideParser.getOption`. -/
structure GetOptionResult where
  scope : Option OptionScope := none
  optionName : Option String := none
  option : Option ClideOption := none

/-- Observable outcome of `parseConfig`: a resolved program, a successful
help exit (status 0), the caught-error path (error line printed, help shown,
exit status 1), or an error propagated to the caller. -/
inductive ParseOutcome where
  | ok (p : ClideProgram)
  | exitHelp
  | exitError (msg : String)
  | thrown (msg : String)
deriving DecidableEq

/-- The synthetic help option injected by `#injectHelpOptions`. -/
def helpOpt : ClideOption :=
  { type := .boolean, description := some "Show help information" }

/-- Auto-injection of the help option (`ClideParser.#injectHelpOptions`):
adds a global `help` option when none is declared (claiming short `h` only if
free), and does the same on every command's options record. Returns the new
global options, the new commands, and the scopes recorded in
`#systemHelpScopes`. The command records are updated in place on the shared
command descriptor objects, which is why the caller-visible configuration
(`constructResult`) sees the same updated commands. -/
def injectHelpOptions (options : List (String × ClideOption))
    (commands : List (String × ClideCommand)) :
    List (String × ClideOption) × List (String × ClideCommand) × List String :=
  let (options', globalScopes) :=
    if (recordGet options "help").isNone then
      let shortTaken := options.any (fun kv => kv.2.short = some "h")
      (options ++ [("help", { helpOpt with short := if shortTaken then none else some "h" })],
        ["global"])
    else (options, [])
  let injected := commands.filterMap
    (fun kv => if (recordGet kv.2.options "help").isNone then some kv.1 else none)
  let commands' := commands.map (fun kv =>
    if (recordGet kv.2.options "help").isNone then
      let shortTaken := kv.2.options.any (fun ov => ov.2.short = some "h")
      (kv.1, { kv.2 with options :=
        kv.2.options ++ [("help", { helpOpt with short := if shortTaken then none else some "h" })] })
    else kv)
  (options', commands', globalScopes ++ injected)

/-- The `ClideParser` constructor. The configuration object is spread-copied
with its global options record shallow-cloned; the `commands` record keeps
aliasing the caller's command descriptor objects, so help injection into a
command is visible through the caller's configuration as well. The second
component is the caller's configuration as observable after construction. -/
def constructResult (inp : ClideInit) (defaultPromptAsync : PromptFn) :
    ParserCtx × ClideConfig :=
  let cfg0 := inp.config
  let (options', commands', scopes) :=
    if cfg0.disableHelp then (cfg0.options, cfg0.commands, [])
    else injectHelpOptions cfg0.options cfg0.commands
  let internal : ClideConfig :=
    { cfg0 with
      options := options'
      commands := commands'
      promptAsync := some (cfg0.promptAsync.getD defaultPromptAsync) }
  let callerView : ClideConfig := { cfg0 with commands := commands' }
  ({ config := internal
     args := inp.args
     env := inp.env
     truthyValues := inp.truthyValues.getD ["true", "yes", "1"]
     falsyValues := inp.falsyValues.getD ["false", "no", "0"]
     systemHelpScopes := scopes }, callerView)

/-- Name rule `^[a-z][a-z0-9-_]*$`, character class. -/
def isNameChar (c : Char) : Bool :=
  ('a' ≤ c ∧ c ≤ 'z') ∨ ('0' ≤ c ∧ c ≤ '9') ∨ c = '-' ∨ c = '_'

/-- Test of the option/command name pattern `^[a-z][a-z0-9-_]*$`. -/
def nameRegexTest (s : String) : Bool :=
  match s.data with
  | [] => false
  | c :: rest => ('a' ≤ c ∧ c ≤ 'z') ∧ rest.all isNameChar

/-- Test of the short-alias pattern `^[a-zA-Z]$`. -/
def shortOptionRegexTest (s : String) : Bool :=
  match s.data with
  | [c] => ('a' ≤ c ∧ c ≤ 'z') ∨ ('A' ≤ c ∧ c ≤ 'Z')
  | _ => false

/-- The validator's `checkName` helper. -/
def checkName (name errPrefix : String) : Except String Unit :=
  if jsToLower name ≠ name then
    .error ("Error in clide config. " ++ errPrefix ++ " \"" ++ name ++ "\" must be all lower case. ")
  else if ¬ nameRegexTest name then
    .error ("Error in clide config. " ++ errPrefix ++ " \"" ++ name ++
      "\" must start with an alphabet and contain only lowercase letters, numbers, hyphens, and underscores.")
  else .ok ()

/-- The validator's `checkShortOption` helper. -/
def checkShortOption (shortOptionName : String) : Except String Unit :=
  if ¬ shortOptionRegexTest shortOptionName then
    .error ("Error in clide config. Short option \"" ++ shortOptionName ++
      "\" must be a single alphabetical character. ")
  else .ok ()

/-- The global-scope half of `#validateConfig`: checks each option name,
registers short aliases in the global shorts map (rejecting duplicates), and
rejects a negatable boolean whose `no-` counterpart is declared. `allOptions`
is the full record (conflict lookups consult it), the recursion walks it. -/
def validateGlobalOptionsLoop (allOptions : List (String × ClideOption)) :
    List (String × ClideOption) → List (String × String) →
    Except String (List (String × String))
  | [], gmap => .ok gmap
  | (optName, option) :: rest, gmap => do
    checkName optName "Option name"
    let gmap ←
      match option.short with
      | some s =>
        if s = "" then pure gmap
        else do
          checkShortOption s
          match recordGet gmap s with
          | some existing =>
            throw ("Error in clide config: Short option \"-" ++ s ++ "\" (on \"--" ++ optName ++
              "\") is already in use by \"--" ++ existing ++ "\".")
          | none => pure (recordSet gmap s optName)
      | none => pure gmap
    if option.type = OptionType.boolean ∧ option.negatable ∧
        (recordGet allOptions ("no-" ++ optName)).isSome then
      throw ("Error in clide config. Boolean option \"" ++ optName ++
        "\" is negatable but a conflicting option \"no-" ++ optName ++ "\" is already defined.")
    else
      validateGlobalOptionsLoop allOptions rest gmap

/-- The per-command option loop of `#validateConfig`. -/
def validateCommandOptionsLoop (cmdName : String) (allOptions : List (String × ClideOption)) :
    List (String × ClideOption) → List (String × String) →
    Except String (List (String × String))
  | [], cmap => .ok cmap
  | (optName, option) :: rest, cmap => do
    checkName optName "Option name"
    let cmap ←
      match option.short with
      | some s =>
        if s = "" then pure cmap
        else do
          checkShortOption s
          match recordGet cmap s with
          | some _ =>
            throw ("Error in clide config. Short option \"" ++ s ++
              "\" is already in use for command \"" ++ cmdName ++ "\".")
          | none => pure (recordSet cmap s optName)
      | none => pure cmap
    if option.type = OptionType.boolean ∧ option.negatable ∧
        (recordGet allOptions ("no-" ++ optName)).isSome then
      throw ("Error in clide config. Boolean option \"" ++ optName ++ "\" in command \"" ++
        cmdName ++ "\" is negatable but a conflicting option \"no-" ++ optName ++
        "\" is already defined.")
    else
      validateCommandOptionsLoop cmdName allOptions rest cmap

/-- The command loop of `#validateConfig`, building `#commandShortsMap`. -/
def validateCommandsLoop :
    List (String × ClideCommand) → List (String × List (String × String)) →
    Except String (List (String × List (String × String)))
  | [], cmaps => .ok cmaps
  | (cmdName, cmd) :: rest, cmaps => do
    checkName cmdName "Command name "
    let m ← validateCommandOptionsLoop cmdName cmd.options cmd.options
      ((recordGet cmaps cmdName).getD [])
    validateCommandsLoop rest (recordSet cmaps cmdName m)

/-- `ClideParser.#validateConfig`: default-command existence, name rules,
short-alias rules and uniqueness per scope, negation conflicts. Returns the
global and per-command short-alias maps it builds. -/
def validateConfig (cfg : ClideConfig) :
    Except String (List (String × String) × List (String × List (String × String))) := do
  match cfg.defaultCommand with
  | some d =>
    if d ≠ "" ∧ (recordGet cfg.commands d).isNone then
      throw ("Error in clide config. Default command \"" ++ d ++ "\" not found in config")
    else pure ()
  | none => pure ()
  let gmap ← validateGlobalOptionsLoop cfg.options cfg.options []
  let cmaps ← validateCommandsLoop cfg.commands []
  return (gmap, cmaps)

/-- Truth of `commands?.[arg.toLowerCase()]` — whether a raw token selects a
declared command. -/
def isCommandToken (cfg : ClideConfig) (arg : String) : Bool :=
  (recordGet cfg.commands (jsToLower arg)).isSome

/-- The scanning loop of `#splitArgsByCommand`: the first token naming a
command yields the tokens before it, the lower-cased command, and the tokens
after it. -/
def splitScan (cfg : ClideConfig) : List String → Option (List String × String × List String)
  | [] => none
  | arg :: rest =>
    if isCommandToken cfg arg then some ([], jsToLower arg, rest)
    else (splitScan cfg rest).map (fun pr => (arg :: pr.1, pr.2.1, pr.2.2))

/-- `ClideParser.#splitArgsByCommand`: returns the two argument segments, the
selected command (if any) and the `isDefaultCommand` flag. -/
def splitArgsByCommand (cfg : ClideConfig) (args : List String) :
    ParsedArgs × Option String × Bool :=
  match splitScan cfg args with
  | some (pre, c, post) => ({ programArgs := pre, commandArgs := post }, some c, false)
  | none =>
    match cfg.defaultCommand with
    | some d =>
      if d ≠ "" then ({ programArgs := [], commandArgs := args }, some d, true)
      else ({ programArgs := args, commandArgs := [] }, none, false)
    | none => ({ programArgs := args, commandArgs := [] }, none, false)

/-- Short-alias lookup step shared by the two branches of `getOption`: when a
truthy short name is supplied the shorts map is consulted (replacing the
current option name), otherwise the current option name is kept. -/
def shortsLookup? (m : List (String × String)) (short? fallback : Option String) :
    Option String :=
  match short? with
  | some s => if s = "" then fallback else recordGet m s
  | none => fallback

/-- Option-table lookup guarded by string truthiness of the name. -/
def tableLookup? (table : List (String × ClideOption)) (n? : Option String) :
    Option ClideOption :=
  match n? with
  | some n => if n = "" then none else recordGet table n
  | none => none

/-- `ClideParser.getOption`: resolves a long or short option name against the
global table (when there is no active command, or the active command is the
default command) and then against the active command's table. -/
def getOption (ctx : ParserCtx) (p : ClideProgram)
    (optionName? shortOptionName? : Option String) (isProgramOption : Bool) :
    GetOptionResult :=
  let command : Option String := if isProgramOption then none else p.command
  let lowered : Option String := optionName?.map jsToLower
  let globalAllowed : Bool := ¬ optStrTruthy command ∨ p.isDefaultCommand
  let n1 : Option String :=
    if globalAllowed then shortsLookup? ctx.globalShortsMap shortOptionName? lowered else lowered
  let o1 : Option ClideOption :=
    if globalAllowed then tableLookup? ctx.config.options n1 else none
  if o1.isSome then { scope := some .global, optionName := n1, option := o1 }
  else
    match command with
    | some c =>
      if c = "" then { scope := none, optionName := n1, option := none }
      else
        let cmdShorts := (recordGet ctx.commandShortsMap c).getD []
        let n2 := shortsLookup? cmdShorts shortOptionName? n1
        let cmdOpts := match recordGet ctx.config.commands c with
          | some cmd => cmd.options
          | none => []
        let o2 := tableLookup? cmdOpts n2
        { scope := if o2.isSome then some .command else none, optionName := n2, option := o2 }
    | none => { scope := none, optionName := n1, option := none }

/-- `ClideParser.#setProgramOption`: a boolean stored under a `no-`-prefixed
name has one `no-` stripped and the value inverted; the value is written into
the unified `options` record and into the record of its scope. -/
def setProgramOption (optionName : String) (optionValue : ClideValue)
    (scope : Option OptionScope) (p : ClideProgram) : ClideProgram :=
  let (optionName, optionValue) :=
    if strStartsWith optionName "no-" ∧ isBoolVal optionValue then
      (strDrop optionName 3,
        match optionValue with
        | .bool b => ClideValue.bool (¬ b)
        | v => v)
    else (optionName, optionValue)
  { p with
    options := recordSet p.options optionName optionValue
    commandOptions :=
      if scope = some .command then recordSet p.commandOptions optionName optionValue
      else p.commandOptions
    globalOptions :=
      if scope = some .global then recordSet p.globalOptions optionName optionValue
      else p.globalOptions }

/-- Splitting `-xyz` / `-xyz=value` into its short-option pieces: the
characters after the dash, with everything from the character before a `=`
onward re-joined into the final piece (`#parseOptionsFromArgs`, lines
531-538). -/
def splitShortOptions (arg : String) : List String :=
  let shortOptions := (strDrop arg 1).data.map (fun c => String.mk [c])
  match findIdxA (fun s => s = "=") shortOptions with
  | none => shortOptions
  | some eqIndex =>
    jsSliceTo shortOptions ((eqIndex : Int) - 1) ++
      [String.join (jsSliceFrom shortOptions ((eqIndex : Int) - 1))]

/-- The stacked-shorts loop: every piece but the last must resolve to a
boolean option in scope and is set to true immediately; the last piece is
returned as the primary option name (`none` when the piece list is empty,
which later surfaces as an unknown option). -/
def processStackedShorts (ctx : ParserCtx) (isProgramArgs : Bool) (arg : String) :
    List String → ClideProgram → Except String (ClideProgram × Option String)
  | [], p => .ok (p, none)
  | [last], p => .ok (p, some last)
  | shortOption :: rest, p =>
    let r := getOption ctx p none (some shortOption) isProgramArgs
    match r.option, r.optionName with
    | some opt, some rn =>
      if opt.type = OptionType.boolean ∧ rn ≠ "" then
        processStackedShorts ctx isProgramArgs arg rest
          (setProgramOption rn (.bool true) r.scope p)
      else .error ("Invalid option \"" ++ arg ++ "\". ")
    | _, _ => .error ("Invalid option \"" ++ arg ++ "\". ")

/-- The `=`-split applied to a long option token (`optionName.indexOf("=")`
with the two slices). -/
def eqSplit (s : String) : String × Option String :=
  match findIdxA (fun c => c = '=') s.data with
  | none => (s, none)
  | some i => (⟨s.data.take i⟩, some ⟨s.data.drop (i + 1)⟩)

/-- The boolean literal chain: truthy set first, then falsy set, both matched
on the lower-cased value. -/
def boolLiteral (ctx : ParserCtx) (v : String) : Option Bool :=
  if listHas ctx.truthyValues (jsToLower v) then some true
  else if listHas ctx.falsyValues (jsToLower v) then some false
  else none

/-- Value handling for a string or number option: a number value is coerced
with `Number(...)` and rejected when `NaN`; a string value is stored as-is.
`consumed` records whether the value came from the following token. -/
def applyNonBooleanValue (opt : ClideOption) (rn optionName : String)
    (scope : Option OptionScope) (w : String) (consumed : Bool) (p : ClideProgram) :
    Except String (ClideProgram × Bool) :=
  if opt.type = OptionType.number then
    match parseNumber w with
    | some k => .ok (setProgramOption rn (.num k) scope p, consumed)
    | none =>
      .error ("Value \"NaN\" for option \"" ++ optionName ++ "\" is not a number. ")
  else .ok (setProgramOption rn (.str w) scope p, consumed)

/-- The scope-lookup phase of `#parseOptionsFromArgs` for one option token:
the `getOption` call (long or short form) followed by the `no-` negation
fallback (strip the `no-` prefix, re-resolve, accept only a negatable
boolean, and re-attach the prefix to the resolved name). -/
def resolveOptionRef (ctx : ParserCtx) (isProgramArgs : Bool) (optionName : String)
    (isShortOption : Bool) (p : ClideProgram) : GetOptionResult :=
  let r0 :=
    if isShortOption then getOption ctx p none (some optionName) isProgramArgs
    else getOption ctx p (some optionName) none isProgramArgs
  match r0.option, r0.optionName with
  | none, some rn =>
    if strStartsWith rn "no-" then
      let r1 := getOption ctx p (some (strDrop rn 3)) none isProgramArgs
      match r1.option with
      | some o =>
        if o.type = OptionType.boolean ∧ o.negatable then
          { r1 with optionName := r1.optionName.map (fun m => "no-" ++ m) }
        else { r1 with option := none }
      | none => { r1 with option := none }
    else r0
  | _, _ => r0

/-- The boolean value rules of `#parseOptionsFromArgs`: an explicit `=value`
goes through the truthy/falsy literal chain; otherwise a following token
whose lower-casing lies in the union of the truthy and falsy sets is
consumed as the value; otherwise presence alone means true (when the
lookahead is absent the `?? ""` fallback may still count as a consumed
index). -/
def applyBooleanValue (ctx : ParserCtx) (rn : String) (scope : Option OptionScope)
    (optionValue0 nextArg : Option String) (p : ClideProgram) :
    Except String (ClideProgram × Bool) :=
  match optionValue0 with
  | some v =>
    match boolLiteral ctx v with
    | some b => .ok (setProgramOption rn (.bool b) scope p, false)
    | none => .error ("Unknown boolean value \"" ++ v ++ "\". ")
  | none =>
    match nextArg with
    | some next =>
      if listHas (ctx.truthyValues ++ ctx.falsyValues) (jsToLower next) then
        match boolLiteral ctx next with
        | some b => .ok (setProgramOption rn (.bool b) scope p, true)
        | none => .error ("Unknown boolean value \"" ++ next ++ "\". ")
      else .ok (setProgramOption rn (.bool true) scope p, false)
    | none =>
      if listHas (ctx.truthyValues ++ ctx.falsyValues) "" then
        .ok (setProgramOption rn (.bool true) scope p, true)
      else .ok (setProgramOption rn (.bool true) scope p, false)

/-- The value rules of `#parseOptionsFromArgs` for a resolved option:
boolean options via `applyBooleanValue`; string and number options require
an explicit `=value` or a truthy following token, else fail with the
missing-value error. -/
def applyValuePhase (ctx : ParserCtx) (opt : ClideOption) (rn optionName : String)
    (scope : Option OptionScope) (optionValue0 nextArg : Option String) (p : ClideProgram) :
    Except String (ClideProgram × Bool) :=
  if opt.type = OptionType.boolean then
    applyBooleanValue ctx rn scope optionValue0 nextArg p
  else
    match optionValue0 with
    | some v => applyNonBooleanValue opt rn optionName scope v false p
    | none =>
      match nextArg with
      | some next =>
        if next ≠ "" then applyNonBooleanValue opt rn optionName scope next true p
        else .error ("Missing value for option \"" ++ optionName ++ "\". ")
      | none => .error ("Missing value for option \"" ++ optionName ++ "\". ")

/-- The main per-token option handling of `#parseOptionsFromArgs` after the
raw option name has been extracted: `=`-split, scope lookup with the `no-`
fallback, then the value rules. Returns the updated program and whether the
following token was consumed. -/
def mainOption (ctx : ParserCtx) (isProgramArgs : Bool) (arg optionName0 : String)
    (isShortOption : Bool) (nextArg : Option String) (p : ClideProgram) :
    Except String (ClideProgram × Bool) :=
  let split := eqSplit optionName0
  let optionName := split.1
  let optionValue0 := split.2
  let r := resolveOptionRef ctx isProgramArgs optionName isShortOption p
  match r.option, r.optionName with
  | some opt, some rn =>
    if rn = "" then .error ("Unknown option \"" ++ arg ++ "\". ")
    else applyValuePhase ctx opt rn optionName r.scope optionValue0 nextArg p
  | _, _ => .error ("Unknown option \"" ++ arg ++ "\". ")

/-- One iteration of the `#parseOptionsFromArgs` loop on token `arg` with
lookahead `nextArg`: long option, stacked shorts, or positional. -/
def parseOneArg (ctx : ParserCtx) (isProgramArgs : Bool) (arg : String)
    (nextArg : Option String) (p : ClideProgram) : Except String (ClideProgram × Bool) :=
  if strStartsWith arg "--" then
    mainOption ctx isProgramArgs arg (strDrop arg 2) false nextArg p
  else if strStartsWith arg "-" then
    match processStackedShorts ctx isProgramArgs arg (splitShortOptions arg) p with
    | .error e => .error e
    | .ok (_, none) => .error ("Unknown option \"" ++ arg ++ "\". ")
    | .ok (p1, some optionName) => mainOption ctx isProgramArgs arg optionName true nextArg p1
  else
    if ctx.config.allowPositionals then
      .ok ({ p with positionals := p.positionals.map (fun l => l ++ [arg]) }, false)
    else .error ("Unknown argument \"" ++ arg ++ "\". ")

/-- `ClideParser.#parseOptionsFromArgs`: the token loop over one segment.
A step that consumed its lookahead skips the following token (the `i++`
inside the loop); consuming a nonexistent lookahead at the end of the list
just ends the loop. -/
def parseOptionsFromArgs (ctx : ParserCtx) (isProgramArgs : Bool) :
    List String → ClideProgram → Except String ClideProgram
  | [], p => .ok p
  | arg :: rest, p =>
    match parseOneArg ctx isProgramArgs arg rest.head? p with
    | .error e => .error e
    | .ok (p1, consumed) =>
      if consumed then
        match rest with
        | _ :: rest2 => parseOptionsFromArgs ctx isProgramArgs rest2 p1
        | [] => .ok p1
      else parseOptionsFromArgs ctx isProgramArgs rest p1

/-- `ClideParser.#validateOption`: runtime type check, `choices` membership,
then the custom `validate` callback (a returned string is a rejection
message, a falsy result a generic rejection). -/
def validateOption (option : ClideOption) (optionName : String) (optionValue : ClideValue) :
    Except String Unit := do
  if option.type = OptionType.boolean ∧ ¬ isBoolVal optionValue then
    throw ("Value \"" ++ showValue optionValue ++ "\" for option \"" ++ optionName ++
      "\" is not a boolean. ")
  if option.type = OptionType.number ∧ ¬ isNumVal optionValue then
    throw ("Value \"" ++ showValue optionValue ++ "\" for option \"" ++ optionName ++
      "\" is not a number. ")
  if option.type = OptionType.string ∧ ¬ isStrVal optionValue then
    throw ("Value \"" ++ showValue optionValue ++ "\" for option \"" ++ optionName ++
      "\" is not a string. ")
  match option.choices with
  | some choices =>
    if ¬ choices.any (fun c => c = optionValue) then
      throw ("Value \"" ++ showValue optionValue ++ "\" for option \"" ++ optionName ++
        "\" is not a valid choice." ++ " Valid choices are " ++
        String.intercalate ", " (choices.map showValue) ++ ". ")
    else pure ()
  | none => pure ()
  match option.validate with
  | some f =>
    match f optionValue with
    | .str m => throw m
    | .bool b =>
      if ¬ b then
        throw ("Value \"" ++ showValue optionValue ++ "\" for option \"" ++ optionName ++
          "\" is invalid.")
      else pure ()
  | none => pure ()

/-- The boolean coercion block of `#finalizeOptions` (applied when the
declared type is boolean but the candidate value is not): the lower-cased
string is matched against the truthy set (or emptiness) and the falsy set,
anything else is unresolved. A number candidate cannot occur for a TypeScript
well-typed configuration and is modelled as unresolved. -/
def coerceBoolFromValue (ctx : ParserCtx) : ClideValue → Option ClideValue
  | .str s =>
    let v := jsToLower s
    if listHas ctx.truthyValues v ∨ v.data.length = 0 then some (.bool true)
    else if listHas ctx.falsyValues v then some (.bool false)
    else none
  | .num _ => none
  | .bool b => some (.bool b)

/-- The number coercion block of `#finalizeOptions`: `Number(...)` with a
`NaN` result treated as unresolved. -/
def coerceNumFromValue : ClideValue → Option ClideValue
  | .str s => (parseNumber s).map ClideValue.num
  | .bool b => some (.num (if b then 1 else 0))
  | .num k => some (.num k)

/-- The two successive coercion blocks of `#finalizeOptions` applied to a
candidate value for an option of type `t`. -/
def coerceForType (ctx : ParserCtx) (t : OptionType) (v : ClideValue) : Option ClideValue :=
  let step1 : Option ClideValue :=
    if t = OptionType.boolean ∧ ¬ isBoolVal v then coerceBoolFromValue ctx v else some v
  match step1 with
  | some v1 =>
    if t = OptionType.number ∧ ¬ isNumVal v1 then coerceNumFromValue v1 else some v1
  | none => none

/-- The per-option candidate value of the defaults/env pass: the environment
variable (when an `env` binding names a present variable) takes priority over
the declared `default`; the candidate then runs through the type coercions. -/
def envDefaultValue (ctx : ParserCtx) (option : ClideOption) : Option ClideValue :=
  let envVal : Option String :=
    match option.env with
    | some e => if e = "" then none else recordGet ctx.env e
    | none => none
  let value : Option ClideValue :=
    match envVal with
    | some s => some (.str s)
    | none => option.default
  value.bind (coerceForType ctx option.type)

/-- The immediate failure message of the defaults pass when prompting is
disabled and a required option is unresolved. -/
def missingRequiredMsg (scope : OptionScope) (command : Option String)
    (optionName : String) : String :=
  "Missing required option \"" ++ optionName ++ "\"" ++
    (if scope = OptionScope.global then ". "
     else " for command \"" ++ (match command with | some c => c | none => "undefined") ++ "\". ")

/-- The defaults/env pass of `#finalizeOptions` over one scope's declared
options: already-set options are skipped; a resolved candidate is stored; an
unresolved required option fails immediately when prompting is disabled and
is queued for prompting otherwise. -/
def applyDefaultsScan (ctx : ParserCtx) (scope : OptionScope) (command : Option String) :
    List (String × ClideOption) → ClideProgram → List String →
    Except String (ClideProgram × List String)
  | [], p, queue => .ok (p, queue)
  | (optionName, option) :: rest, p, queue =>
    if (recordGet p.options optionName).isSome then
      applyDefaultsScan ctx scope command rest p queue
    else
      match envDefaultValue ctx option with
      | some v =>
        applyDefaultsScan ctx scope command rest (setProgramOption optionName v (some scope) p) queue
      | none =>
        if option.required then
          if ctx.config.disablePrompts then .error (missingRequiredMsg scope command optionName)
          else applyDefaultsScan ctx scope command rest p (queue ++ [optionName])
        else applyDefaultsScan ctx scope command rest p queue

/-- The validation pass of `#finalizeOptions` over one scope's entries of the
program result: entries whose name no longer resolves are skipped. -/
def validateEntriesLoop (ctx : ParserCtx) (p : ClideProgram) (isProgramScope : Bool) :
    List (String × ClideValue) → Except String Unit
  | [] => .ok ()
  | (optionName, optionValue) :: rest =>
    match (getOption ctx p (some optionName) none isProgramScope).option with
    | none => validateEntriesLoop ctx p isProgramScope rest
    | some option =>
      match validateOption option optionName optionValue with
      | .error e => .error e
      | .ok _ => validateEntriesLoop ctx p isProgramScope rest

/-- The prompting loop of `#finalizeOptions` over one scope's queue: each
prompt answer is validated and stored under the queued name. -/
def promptQueueRun (ctx : ParserCtx) (promptAsync : PromptFn) (scope : OptionScope) :
    List String → ClideProgram → Except String ClideProgram
  | [], p => .ok p
  | optionName :: rest, p =>
    let r := getOption ctx p (some optionName) none (scope = OptionScope.global)
    match r.option, r.optionName with
    | some option, some resolvedOptionName =>
      if resolvedOptionName = "" then promptQueueRun ctx promptAsync scope rest p
      else
        let optionValue := promptAsync resolvedOptionName option r.scope p
        match validateOption option resolvedOptionName optionValue with
        | .error e => .error e
        | .ok _ =>
          promptQueueRun ctx promptAsync scope rest
            (setProgramOption optionName optionValue (some scope) p)
    | _, _ => promptQueueRun ctx promptAsync scope rest p

/-- The terminal branch of `#finalizeOptions` when prompting is unavailable:
a non-empty queue fails listing all queued names of that scope. -/
def finalizeNoPrompts (command : Option String) (queueGlobal queueCommand : List String)
    (p : ClideProgram) : Except String ClideProgram :=
  if queueGlobal ≠ [] then
    .error ("Missing required options " ++
      String.intercalate ", " (queueGlobal.map (fun o => "--" ++ o)) ++ ". ")
  else if queueCommand ≠ [] then
    .error ("Missing required options " ++
      String.intercalate ", " (queueCommand.map (fun o => "--" ++ o)) ++
      " for command \"" ++ (match command with | some c => c | none => "undefined") ++ "\". ")
  else .ok p

/-- The active command's declared options as the finalizer reads them:
`commands?.[command ?? ""]?.options ?? {}`. -/
def activeCommandOptions (ctx : ParserCtx) (command : Option String) :
    List (String × ClideOption) :=
  match recordGet ctx.config.commands (match command with | some c => c | none => "") with
  | some cmd => cmd.options
  | none => []

/-- `ClideParser.#finalizeOptions`: defaults/env pass over the global then
the active command's declared options, validation pass over the stored
global then command entries, then prompting (or the missing-required
failure when prompting is unavailable). -/
def finalizeOptions (ctx : ParserCtx) (p : ClideProgram) : Except String ClideProgram :=
  match applyDefaultsScan ctx OptionScope.global p.command ctx.config.options p [] with
  | .error e => .error e
  | .ok (p1, queueGlobal) =>
    match applyDefaultsScan ctx OptionScope.command p.command
        (activeCommandOptions ctx p.command) p1 [] with
    | .error e => .error e
    | .ok (p2, queueCommand) =>
      match validateEntriesLoop ctx p2 true p2.globalOptions with
      | .error e => .error e
      | .ok _ =>
        match validateEntriesLoop ctx p2 false p2.commandOptions with
        | .error e => .error e
        | .ok _ =>
          if ctx.config.disablePrompts then
            finalizeNoPrompts p.command queueGlobal queueCommand p2
          else
            match ctx.config.promptAsync with
            | some promptAsync =>
              match promptQueueRun ctx promptAsync OptionScope.global queueGlobal p2 with
              | .error e => .error e
              | .ok p3 => promptQueueRun ctx promptAsync OptionScope.command queueCommand p3
            | none => finalizeNoPrompts p.command queueGlobal queueCommand p2

/-- `ClideParser.#checkForHelp`: true exactly when the pipeline exits with
status 0 to show help — command-scoped help when an explicitly named command
has its own auto-injected help triggered, root help when the global help is
auto-injected. -/
def checkForHelp (ctx : ParserCtx) (p : ClideProgram) : Bool :=
  if ¬ valueTruthyOpt (recordGet p.options "help") then false
  else
    if ¬ p.isDefaultCommand ∧ optStrTruthy p.command ∧
        valueTruthyOpt (recordGet p.commandOptions "help") ∧
        listHas ctx.systemHelpScopes (match p.command with | some c => c | none => "") then
      true
    else listHas ctx.systemHelpScopes "global"

/-- `ClideParser.parseConfig`: configuration validation and argument
splitting run outside the try block (their errors always propagate); parsing,
the help check and finalization run inside it, and a thrown `Error` is
caught, printed with help, and turned into `process.exit(1)` exactly when
`disableHelp` is not set — the declared `throwOnError` flag is never
consulted. -/
def parseConfig (ctx : ParserCtx) : ParseOutcome :=
  match validateConfig ctx.config with
  | .error e => .thrown e
  | .ok (gmap, cmaps) =>
    let ctx := { ctx with globalShortsMap := gmap, commandShortsMap := cmaps }
    let (parsedArgs, command?, isDefault) := splitArgsByCommand ctx.config ctx.args
    let prog0 : ClideProgram :=
      { command := command?
        isDefaultCommand := isDefault
        positionals := if ctx.config.allowPositionals then some [] else none }
    let body : Except String (Option ClideProgram) :=
      match parseOptionsFromArgs ctx true parsedArgs.programArgs prog0 with
      | .error e => .error e
      | .ok p1 =>
        match parseOptionsFromArgs ctx false parsedArgs.commandArgs p1 with
        | .error e => .error e
        | .ok p2 =>
          if checkForHelp ctx p2 then .ok none
          else
            match finalizeOptions ctx p2 with
            | .error e => .error e
            | .ok p3 => .ok (some p3)
    match body with
    | .ok none => .exitHelp
    | .ok (some p) => .ok p
    | .error e => if ¬ ctx.config.disableHelp then .exitError e else .thrown e

/-- Construction followed by `parseConfig`. -/
def runClide (inp : ClideInit) (defaultPromptAsync : PromptFn) : ParseOutcome :=
  parseConfig (constructResult inp defaultPromptAsync).1

/-- A concrete stand-in prompt collaborator for closed statements that never
reach prompting. -/
def nullPrompt : PromptFn :=
  fun _ _ _ _ => ClideValue.str ""

/-! Basic lemmas about the record and string helpers. -/

theorem strEq_of_data (s t : String) (h : s.data = t.data) : s = t := by
  cases s
  cases t
  exact congrArg String.mk h

theorem strMk_data (s : String) : String.mk s.data = s := by
  cases s
  rfl

theorem recordGet_recordSet_self {V : Type} (l : List (String × V)) (k : String) (v : V) :
    recordGet (recordSet l k v) k = some v := by
  induction l with
  | nil => simp [recordSet, recordGet]
  | cons kv rest ih =>
    obtain ⟨k', w⟩ := kv
    by_cases h : k' = k
    · simp [recordSet, recordGet, h]
    · simp [recordSet, recordGet, h, ih]

theorem recordGet_recordSet_ne {V : Type} (l : List (String × V)) (k k' : String) (v : V)
    (h : k ≠ k') : recordGet (recordSet l k v) k' = recordGet l k' := by
  induction l with
  | nil => simp [recordSet, recordGet, h]
  | cons kv rest ih =>
    obtain ⟨k₀, w⟩ := kv
    by_cases h₀ : k₀ = k
    · subst h₀
      simp [recordSet, recordGet, h]
    · simp [recordSet, recordGet, h₀, ih]

theorem isPrefixOf_append_self {α : Type} [BEq α] [LawfulBEq α] (l t : List α) :
    l.isPrefixOf (l ++ t) = true := by
  induction l with
  | nil => simp [List.isPrefixOf]
  | cons a l ih => simp [List.isPrefixOf, ih]

theorem strStartsWith_append (p s : String) : strStartsWith (p ++ s) p = true := by
  simp only [strStartsWith, String.data_append]
  exact isPrefixOf_append_self _ _

theorem strDrop_append (p s : String) : strDrop (p ++ s) p.data.length = s := by
  apply strEq_of_data
  simp [strDrop, String.data_append]

theorem strDrop_no (s : String) : strDrop ("no-" ++ s) 3 = s :=
  strDrop_append "no-" s

theorem strDrop_dashdash (s : String) : strDrop ("--" ++ s) 2 = s :=
  strDrop_append "--" s

theorem jsToLower_append (a b : String) : jsToLower (a ++ b) = jsToLower a ++ jsToLower b := by
  apply strEq_of_data
  simp [jsToLower, String.data_append]

theorem listHas_append (a b : List String) (s : String) :
    listHas (a ++ b) s = (listHas a s || listHas b s) := by
  simp [listHas, List.any_append]

theorem findIdxA_eq_none {α : Type} (p : α → Bool) (l : List α) (h : ∀ a ∈ l, p a = false) :
    findIdxA p l = none := by
  induction l with
  | nil => rfl
  | cons a l ih =>
    simp only [findIdxA, h a (by simp)]
    simp [ih (fun x hx => h x (by simp [hx]))]

theorem findIdxA_append_first {α : Type} (p : α → Bool) (l₁ : List α) (x : α) (l₂ : List α)
    (h : ∀ a ∈ l₁, p a = false) (hx : p x = true) :
    findIdxA p (l₁ ++ x :: l₂) = some l₁.length := by
  induction l₁ with
  | nil => simp [findIdxA, hx]
  | cons a l ih =>
    simp only [List.cons_append, findIdxA, h a (by simp)]
    simp [ih (fun y hy => h y (by simp [hy]))]

theorem findIdxA_lt_length {α : Type} (p : α → Bool) (l : List α) (i : Nat)
    (h : findIdxA p l = some i) : i < l.length := by
  induction l generalizing i with
  | nil => simp [findIdxA] at h
  | cons a l ih =>
    by_cases ha : p a
    · simp only [findIdxA, ha, if_true, Option.some.injEq] at h
      simp only [List.length_cons]
      omega
    · simp [findIdxA, ha] at h
      obtain ⟨j, hj, rfl⟩ := h
      have := ih j hj
      simp only [List.length_cons]
      omega

theorem eqSplit_of_not_mem (s : String) (h : '=' ∉ s.data) : eqSplit s = (s, none) := by
  unfold eqSplit
  rw [findIdxA_eq_none]
  intro a ha
  simp only [decide_eq_false_iff_not]
  intro hEq
  exact h (hEq ▸ ha)

theorem eqSplit_append (n w : String) (h : '=' ∉ n.data) :
    eqSplit (n ++ "=" ++ w) = (n, some w) := by
  unfold eqSplit
  have hdata : (n ++ "=" ++ w).data = n.data ++ '=' :: w.data := by
    simp [String.data_append]
  rw [hdata]
  rw [findIdxA_append_first (fun c => c = '=') n.data '=' w.data
    (fun a ha => by
      simp only [decide_eq_false_iff_not]
      intro hEq
      exact h (hEq ▸ ha)) (by simp)]
  have h1 : (⟨(n.data ++ '=' :: w.data).take n.data.length⟩ : String) = n := by
    apply strEq_of_data
    simp [List.take_left]
  have h2 : (⟨(n.data ++ '=' :: w.data).drop (n.data.length + 1)⟩ : String) = w := by
    apply strEq_of_data
    have hsplit : n.data ++ '=' :: w.data = (n.data ++ ['=']) ++ w.data := by simp
    have hlen : n.data.length + 1 = (n.data ++ ['=']).length := by simp
    simp only [hsplit, hlen, List.drop_left]
  simp only [h1, h2]

/-! Lemmas about `setProgramOption` and the `no-` normalisation. -/

/-- Proof-side view of the key actually written by `setProgramOption`. -/
def writeKey (optionName : String) (v : ClideValue) : String :=
  if strStartsWith optionName "no-" ∧ isBoolVal v then strDrop optionName 3 else optionName

/-- Proof-side view of the value actually written by `setProgramOption`. -/
def writeVal (optionName : String) (v : ClideValue) : ClideValue :=
  if strStartsWith optionName "no-" ∧ isBoolVal v then
    match v with
    | .bool b => ClideValue.bool (¬ b)
    | x => x
  else v

theorem setProgramOption_options (name : String) (v : ClideValue) (sc : Option OptionScope)
    (p : ClideProgram) :
    (setProgramOption name v sc p).options =
      recordSet p.options (writeKey name v) (writeVal name v) := by
  unfold setProgramOption writeKey writeVal
  by_cases h : strStartsWith name "no-" ∧ isBoolVal v
  · simp [h]
  · simp [h]

theorem setProgramOption_globalOptions (name : String) (v : ClideValue)
    (sc : Option OptionScope) (p : ClideProgram) :
    (setProgramOption name v sc p).globalOptions =
      if sc = some OptionScope.global then
        recordSet p.globalOptions (writeKey name v) (writeVal name v)
      else p.globalOptions := by
  unfold setProgramOption writeKey writeVal
  by_cases h : strStartsWith name "no-" ∧ isBoolVal v
  · simp [h]
  · simp [h]

theorem setProgramOption_commandOptions (name : String) (v : ClideValue)
    (sc : Option OptionScope) (p : ClideProgram) :
    (setProgramOption name v sc p).commandOptions =
      if sc = some OptionScope.command then
        recordSet p.commandOptions (writeKey name v) (writeVal name v)
      else p.commandOptions := by
  unfold setProgramOption writeKey writeVal
  by_cases h : strStartsWith name "no-" ∧ isBoolVal v
  · simp [h]
  · simp [h]

theorem setProgramOption_command (name : String) (v : ClideValue) (sc : Option OptionScope)
    (p : ClideProgram) : (setProgramOption name v sc p).command = p.command := by
  unfold setProgramOption
  by_cases h : strStartsWith name "no-" ∧ isBoolVal v <;> simp [h]

theorem setProgramOption_isDefaultCommand (name : String) (v : ClideValue)
    (sc : Option OptionScope) (p : ClideProgram) :
    (setProgramOption name v sc p).isDefaultCommand = p.isDefaultCommand := by
  unfold setProgramOption
  by_cases h : strStartsWith name "no-" ∧ isBoolVal v <;> simp [h]

theorem setProgramOption_positionals (name : String) (v : ClideValue) (sc : Option OptionScope)
    (p : ClideProgram) : (setProgramOption name v sc p).positionals = p.positionals := by
  unfold setProgramOption
  by_cases h : strStartsWith name "no-" ∧ isBoolVal v <;> simp [h]

theorem startsWith_no_structure (m : String) (h : strStartsWith m "no-" = true) :
    m = "no-" ++ strDrop m 3 := by
  unfold strStartsWith at h
  have hp : "no-".data <+: m.data := List.isPrefixOf_iff_prefix.mp h
  obtain ⟨t, ht⟩ := hp
  apply strEq_of_data
  rw [String.data_append]
  show m.data = "no-".data ++ m.data.drop 3
  rw [← ht]
  have h3 : (3 : Nat) = "no-".data.length := rfl
  rw [h3, List.drop_left]

theorem strDrop3_ne_self (m : String) (h : strStartsWith m "no-" = true) : strDrop m 3 ≠ m := by
  intro hEq
  have hs := startsWith_no_structure m h
  have hlen : m.data.length = 3 + (strDrop m 3).data.length := by
    conv_lhs => rw [hs]
    simp [String.data_append]
    omega
  rw [hEq] at hlen
  omega

theorem eq_no_append_of_drop (m n : String) (h : strStartsWith m "no-" = true)
    (hd : strDrop m 3 = n) : m = "no-" ++ n := by
  have hs := startsWith_no_structure m h
  rw [hd] at hs
  exact hs

theorem writeKey_ne (name n : String) (v : ClideValue)
    (h1 : name ≠ n) (h2 : name ≠ "no-" ++ n) : writeKey name v ≠ n := by
  unfold writeKey
  by_cases hc : strStartsWith name "no-" ∧ isBoolVal v
  · rw [if_pos hc]
    intro hEq
    exact h2 (eq_no_append_of_drop name n hc.1 hEq)
  · rw [if_neg hc]
    exact h1

theorem writeKey_of_not_no (name : String) (v : ClideValue)
    (h : strStartsWith name "no-" = false) : writeKey name v = name := by
  unfold writeKey
  rw [if_neg]
  intro hc
  rw [h] at hc
  exact Bool.false_ne_true hc.1

theorem writeVal_of_not_no (name : String) (v : ClideValue)
    (h : strStartsWith name "no-" = false) : writeVal name v = v := by
  unfold writeVal
  rw [if_neg]
  intro hc
  rw [h] at hc
  exact Bool.false_ne_true hc.1

theorem writeKey_no_bool (name : String) (b : Bool) (h : strStartsWith name "no-" = true) :
    writeKey name (.bool b) = strDrop name 3 := by
  unfold writeKey
  rw [if_pos ⟨h, rfl⟩]

theorem writeVal_no_bool (name : String) (b : Bool) (h : strStartsWith name "no-" = true) :
    writeVal name (.bool b) = ClideValue.bool (¬ b) := by
  unfold writeVal
  rw [if_pos ⟨h, rfl⟩]

/-! Characterisations of `getOption` for long names. -/

theorem getOption_program_long (ctx : ParserCtx) (p : ClideProgram) (n : String)
    (hne : n ≠ "") (hlow : jsToLower n = n) :
    getOption ctx p (some n) none true =
      { scope := if (recordGet ctx.config.options n).isSome then some OptionScope.global else none
        optionName := some n
        option := recordGet ctx.config.options n } := by
  unfold getOption shortsLookup? tableLookup?
  simp only [Option.map_some', hlow, optStrTruthy]
  simp [hne]
  cases hr : recordGet ctx.config.options n <;> simp [hr]

theorem getOption_default_cmd_long (ctx : ParserCtx) (p : ClideProgram) (n : String)
    (hne : n ≠ "") (hlow : jsToLower n = n) (c : String)
    (hcmd : p.command = some c) (hc : c ≠ "") (hdef : p.isDefaultCommand = true) :
    getOption ctx p (some n) none false =
      (match recordGet ctx.config.options n with
       | some o =>
         { scope := some OptionScope.global, optionName := some n, option := some o }
       | none =>
         { scope :=
             if (recordGet (activeCommandOptions ctx (some c)) n).isSome then
               some OptionScope.command
             else none
           optionName := some n
           option := recordGet (activeCommandOptions ctx (some c)) n }) := by
  unfold getOption shortsLookup? tableLookup? activeCommandOptions
  cases hr : recordGet ctx.config.options n
  all_goals cases hq : recordGet ctx.config.commands c
  all_goals simp [Option.map_some', hlow, hcmd, hdef, optStrTruthy, hne, hc, hr, hq, recordGet]

theorem getOption_explicit_cmd_long (ctx : ParserCtx) (p : ClideProgram) (n : String)
    (hne : n ≠ "") (hlow : jsToLower n = n) (c : String)
    (hcmd : p.command = some c) (hc : c ≠ "") (hdef : p.isDefaultCommand = false) :
    getOption ctx p (some n) none false =
      { scope :=
          if (recordGet (activeCommandOptions ctx (some c)) n).isSome then
            some OptionScope.command
          else none
        optionName := some n
        option := recordGet (activeCommandOptions ctx (some c)) n } := by
  unfold getOption shortsLookup? tableLookup? activeCommandOptions
  cases hq : recordGet ctx.config.commands c
  all_goals simp [Option.map_some', hlow, hcmd, hdef, optStrTruthy, hne, hc, hq, recordGet]

theorem getOption_empty_long (ctx : ParserCtx) (p : ClideProgram) (b : Bool) :
    getOption ctx p (some "") none b =
      { scope := none, optionName := some "", option := none } := by
  unfold getOption shortsLookup? tableLookup?
  have hlow : jsToLower "" = "" := rfl
  cases b
  · cases hc : p.command with
    | none => simp [hlow, optStrTruthy]
    | some c =>
      by_cases hce : c = ""
      · simp [hlow, optStrTruthy, hc, hce]
      · simp [hlow, optStrTruthy, hc, hce]
  · simp [hlow, optStrTruthy]

theorem resolveOptionRef_empty (ctx : ParserCtx) (isProgramArgs : Bool) (p : ClideProgram) :
    resolveOptionRef ctx isProgramArgs "" false p =
      { scope := none, optionName := some "", option := none } := by
  unfold resolveOptionRef
  simp only [Bool.false_eq_true, if_false, getOption_empty_long]
  rfl

theorem mainOption_empty_name (ctx : ParserCtx) (isProgramArgs : Bool) (arg : String)
    (nextArg : Option String) (p : ClideProgram) :
    mainOption ctx isProgramArgs arg "" false nextArg p =
      .error ("Unknown option \"" ++ arg ++ "\". ") := by
  unfold mainOption
  simp only [show eqSplit "" = ("", none) from rfl, resolveOptionRef_empty]

theorem startsWith_dashdash_of_dash (a : String) (h : strStartsWith a "-" = false) :
    strStartsWith a "--" = false := by
  unfold strStartsWith at h ⊢
  cases ha : a.data with
  | nil => rfl
  | cons c rest =>
    rw [ha] at h
    show (List.isPrefixOf ['-', '-'] (c :: rest)) = false
    have hh : (List.isPrefixOf ['-'] (c :: rest)) = false := h
    simp [List.isPrefixOf] at hh ⊢
    intro hc
    exact absurd hc hh

/-!
The claims.
-/

/-- Spec-side splitter, phrased from the specification's words: the first
token (scanning left to right, via `findIdxA`) that case-insensitively
matches a declared command name separates the program segment (the tokens
before it) from the command segment (the tokens after it); with no match,
the configured default command takes the entire list as its command segment
with `isDefaultCommand` set, and with no default the entire list is the
program segment. -/
def splitArgsByCommandSpec (cfg : ClideConfig) (args : List String) :
    ParsedArgs × Option String × Bool :=
  match findIdxA (isCommandToken cfg) args with
  | some i =>
    ({ programArgs := args.take i, commandArgs := args.drop (i + 1) },
      ((args.drop i).head?).map jsToLower, false)
  | none =>
    match cfg.defaultCommand with
    | some d =>
      if d ≠ "" then ({ programArgs := [], commandArgs := args }, some d, true)
      else ({ programArgs := args, commandArgs := [] }, none, false)
    | none => ({ programArgs := args, commandArgs := [] }, none, false)

theorem splitScan_spec (cfg : ClideConfig) (args : List String) :
    splitScan cfg args =
      match findIdxA (isCommandToken cfg) args with
      | some i =>
        some (args.take i, jsToLower (((args.drop i).head?).getD ""), args.drop (i + 1))
      | none => none := by
  induction args with
  | nil => rfl
  | cons a rest ih =>
    by_cases h : isCommandToken cfg a
    · simp [splitScan, findIdxA, h]
    · simp only [splitScan, findIdxA, h, if_false, Bool.false_eq_true]
      rw [ih]
      cases hf : findIdxA (isCommandToken cfg) rest
      · simp [hf]
      · simp [hf]

/-- Claim C5: the splitter selects the first token (scanning left-to-right,
case-insensitively) that exactly matches a declared command name as the
command, with earlier tokens forming the program segment and later tokens
the command segment; with no match and a configured `defaultCommand` the
entire list becomes the command segment with `isDefaultCommand` set; with no
match and no default the entire list is the program segment. Stated as
equality of `splitArgsByCommand` (embedded from the code) with
`splitArgsByCommandSpec` (phrased from the specification). -/
theorem claim_C5 (cfg : ClideConfig) (args : List String) :
    splitArgsByCommand cfg args = splitArgsByCommandSpec cfg args := by
  unfold splitArgsByCommand splitArgsByCommandSpec
  rw [splitScan_spec]
  cases hf : findIdxA (isCommandToken cfg) args with
  | none => rfl
  | some i =>
    have hlt := findIdxA_lt_length _ _ _ hf
    cases hh : (args.drop i).head? with
    | none =>
      exfalso
      have hnil : args.drop i = [] := List.head?_eq_none_iff.mp hh
      have hlen : (args.drop i).length = args.length - i := List.length_drop i args
      rw [hnil] at hlen
      simp at hlen
      omega
    | some a => simp [hh]

/-- Claim C9 (amended): after a write of a boolean value under a name
carrying the `no-` prefix, the value is stored under the name with one
leading `no-` stripped and the value inverted, and the `no-`-prefixed key
itself is never written into any of the three result records; a stored key
may however still start with `no-` when the written name carried a doubled
`no-no-` prefix, so the unrestricted invariant of the original claim fails
(see the counterexample). -/
theorem claim_C9 (optionName : String) (b : Bool) (scope : Option OptionScope)
    (p : ClideProgram) (h : strStartsWith optionName "no-" = true) :
    recordGet (setProgramOption optionName (.bool b) scope p).options (strDrop optionName 3) =
      some (.bool (¬ b)) ∧
    recordGet (setProgramOption optionName (.bool b) scope p).options optionName =
      recordGet p.options optionName ∧
    recordGet (setProgramOption optionName (.bool b) scope p).globalOptions optionName =
      recordGet p.globalOptions optionName ∧
    recordGet (setProgramOption optionName (.bool b) scope p).commandOptions optionName =
      recordGet p.commandOptions optionName := by
  have hk := writeKey_no_bool optionName b h
  have hv := writeVal_no_bool optionName b h
  have hne := strDrop3_ne_self optionName h
  refine ⟨?_, ?_, ?_, ?_⟩
  · rw [setProgramOption_options, hk, hv, recordGet_recordSet_self]
  · rw [setProgramOption_options, hk]
    exact recordGet_recordSet_ne _ _ _ _ hne
  · rw [setProgramOption_globalOptions]
    by_cases hs : scope = some OptionScope.global
    · rw [if_pos hs, hk]
      exact recordGet_recordSet_ne _ _ _ _ hne
    · rw [if_neg hs]
  · rw [setProgramOption_commandOptions]
    by_cases hs : scope = some OptionScope.command
    · rw [if_pos hs, hk]
      exact recordGet_recordSet_ne _ _ _ _ hne
    · rw [if_neg hs]

theorem claim_C9_witness :
    strStartsWith "no-verbose" "no-" = true ∧
    recordGet (setProgramOption "no-verbose" (ClideValue.bool true) (some OptionScope.global)
      { }).options (strDrop "no-verbose" 3) = some (ClideValue.bool (¬ true)) :=
  ⟨by decide, (claim_C9 "no-verbose" true (some OptionScope.global) { } (by decide)).1⟩

/-- Configuration declaring a boolean option literally named `no-no-x`
(a name the validator accepts). -/
def cfgNoNoX : ClideConfig :=
  { disableHelp := true, options := [("no-no-x", { type := OptionType.boolean })] }

/-- Parser context for `cfgNoNoX`. -/
def ctxNoNoX : ParserCtx := { config := cfgNoNoX }

/-- Claim C9 counterexample: parsing `--no-no-x` against a declared boolean
option `no-no-x` strips only one `no-` prefix, storing the boolean `false`
under the key `no-x` — a key that starts with `no-` and maps to a boolean,
contradicting the claimed invariant. -/
theorem claim_C9_counterexample :
    parseOptionsFromArgs ctxNoNoX true ["--no-no-x"] { } =
      .ok { options := [("no-x", ClideValue.bool false)],
            globalOptions := [("no-x", ClideValue.bool false)] } ∧
    strStartsWith "no-x" "no-" = true :=
  ⟨rfl, rfl⟩

/-- Constructor input with `throwOnError` set (and help enabled, the
default) and an argument list whose parsing raises an unknown-option
error. -/
def initThrowOnError : ClideInit :=
  { config := { options := [], throwOnError := true }, args := ["--bad"] }

/-- Constructor input with `throwOnError` NOT set but `disableHelp` set, and
the same erroring argument list. -/
def initDisableHelp : ClideInit :=
  { config := { options := [], throwOnError := false, disableHelp := true }, args := ["--bad"] }

/-- Claim C1 (code bug): the claim (and the `throwOnError` documentation in
`types.ts` and the README) says the error propagates uncaught exactly when
`throwOnError` is set. The implementation never reads `throwOnError`: the
catch in `parseConfig` is gated on `disableHelp` instead. With
`throwOnError: true` (help enabled) a parse error is still caught, printed
with help, and the process exits with status 1; with `throwOnError` unset
but `disableHelp: true` the error propagates to the caller. -/
theorem claim_C1 :
    runClide initThrowOnError nullPrompt = .exitError "Unknown option \"--bad\". " ∧
    runClide initDisableHelp nullPrompt = .thrown "Unknown option \"--bad\". " :=
  ⟨rfl, rfl⟩

/-- Claim C2 (amended): with `disablePrompts` set, the defaults pass of
finalization fails immediately at the first declared option (in declaration
order, global scope first) that is required and unresolved, naming only that
option — not a single message listing all missing names. Stated here for the
first global option; any later missing options are never reached. -/
theorem claim_C2 (ctx : ParserCtx) (n1 : String) (o1 : ClideOption)
    (rest : List (String × ClideOption)) (p : ClideProgram)
    (hopts : ctx.config.options = (n1, o1) :: rest)
    (hdp : ctx.config.disablePrompts = true)
    (hunset : recordGet p.options n1 = none)
    (henv : o1.env = none) (hdef : o1.default = none) (hreq : o1.required = true) :
    finalizeOptions ctx p = .error ("Missing required option \"" ++ n1 ++ "\". ") := by
  have hmsg : missingRequiredMsg OptionScope.global p.command n1 =
      "Missing required option \"" ++ n1 ++ "\". " := by
    unfold missingRequiredMsg
    rw [if_pos rfl]
    apply strEq_of_data
    simp [String.data_append]
  have hv : envDefaultValue ctx o1 = none := by
    unfold envDefaultValue
    rw [henv, hdef]
    rfl
  have hstep : applyDefaultsScan ctx OptionScope.global p.command ((n1, o1) :: rest) p [] =
      .error (missingRequiredMsg OptionScope.global p.command n1) := by
    unfold applyDefaultsScan
    rw [hunset, hv, hreq, hdp]
    simp
  unfold finalizeOptions
  rw [hopts, hstep, hmsg]

/-- Configuration with two required global options, prompting disabled. -/
def cfgTwoRequired : ClideConfig :=
  { disableHelp := true, disablePrompts := true,
    options := [("alpha", { type := OptionType.string, required := true }),
                ("beta", { type := OptionType.string, required := true })] }

/-- Parser context for `cfgTwoRequired`. -/
def ctxTwoRequired : ParserCtx := { config := cfgTwoRequired }

/-- Claim C2 counterexample: with `disablePrompts` and the two required
options `alpha` and `beta` both unresolved, finalization fails with a
message naming only `alpha`; the message does not mention `beta`, so it does
not list all missing option names as claimed. -/
theorem claim_C2_counterexample :
    finalizeOptions ctxTwoRequired { } = .error "Missing required option \"alpha\". " ∧
    strContainsStr "beta" "Missing required option \"alpha\". " = false :=
  ⟨rfl, rfl⟩

theorem claim_C2_witness :
    finalizeOptions ctxTwoRequired { } =
      .error ("Missing required option \"" ++ "alpha" ++ "\". ") :=
  claim_C2 ctxTwoRequired "alpha" { type := OptionType.string, required := true }
    [("beta", { type := OptionType.string, required := true })] { } rfl rfl rfl rfl rfl rfl

/-- Bare tokens (tokens not starting with `-`) are appended to `positionals`
in their original order when `allowPositionals` is set; and a literal `--`
token is always rejected as an unknown option — the parser has no terminator
handling (supporting lemma for claim C3). -/
theorem parse_bare_tokens_positionals (ctx : ParserCtx) (isProgramArgs : Bool) (p : ClideProgram)
    (l args : List String) (nextArg : Option String)
    (hpos : ctx.config.allowPositionals = true)
    (hp : p.positionals = some l)
    (hbare : ∀ a ∈ args, strStartsWith a "-" = false) :
    parseOptionsFromArgs ctx isProgramArgs args p =
      .ok { p with positionals := some (l ++ args) } ∧
    parseOneArg ctx isProgramArgs "--" nextArg p = .error ("Unknown option \"--\". ") := by
  constructor
  · induction args generalizing p l with
    | nil =>
      rw [List.append_nil]
      rw [← hp]
      rfl
    | cons a rest ih =>
      have ha : strStartsWith a "-" = false := hbare a (by simp)
      have ha2 : strStartsWith a "--" = false := startsWith_dashdash_of_dash a ha
      have hone : parseOneArg ctx isProgramArgs a rest.head? p =
          .ok ({ p with positionals := some (l ++ [a]) }, false) := by
        unfold parseOneArg
        rw [ha, ha2]
        simp [hpos, hp]
      show parseOptionsFromArgs ctx isProgramArgs (a :: rest) p = _
      rw [parseOptionsFromArgs, hone]
      have hrec := ih { p with positionals := some (l ++ [a]) } (l ++ [a]) rfl
        (fun x hx => hbare x (by simp [hx]))
      simp [hrec]
  · have hm := mainOption_empty_name ctx isProgramArgs "--" nextArg p
    unfold parseOneArg
    rw [show strStartsWith "--" "--" = true from rfl]
    simpa using hm

/-- Configuration allowing positionals (help disabled). -/
def cfgPositionals : ClideConfig := { disableHelp := true, allowPositionals := true }

/-- Parser context for `cfgPositionals`. -/
def ctxPositionals : ParserCtx := { config := cfgPositionals }

/-- Constructor input reproducing the README's own terminator example
`cli -- -file.txt` (with positionals allowed and help disabled). -/
def initTerminator : ClideInit :=
  { config := { disableHelp := true, allowPositionals := true }, args := ["--", "-file.txt"] }

/-- Claim C3 (code bug): the claim and the repository's README (which
documents the standard POSIX `--` terminator, with everything after `--`
always captured as a positional) require tokens after `--` to land in
`positionals`; the implementation has no terminator handling at all — the
`--` token itself is parsed as an option token and fails as an unknown
option, both at the token-parser level and through the whole pipeline on the
README's own example. -/
theorem claim_C3 :
    parseOptionsFromArgs ctxPositionals true ["--", "x"] { positionals := some [] } =
      .error "Unknown option \"--\". " ∧
    runClide initTerminator nullPrompt = .thrown "Unknown option \"--\". " :=
  ⟨rfl, rfl⟩

/-- Claim C8 (amended): the configuration object is spread-copied with its
global options record shallow-cloned, so after construction the caller's
global options map — and every configuration field other than `commands` —
is unchanged; the `commands` record however keeps aliasing the caller's
command descriptor objects, and auto-help injection mutates each command
descriptor lacking a `help` option, so the caller's command descriptors are
changed whenever help is enabled and such a command exists (see the
counterexample). With `disableHelp` set the caller's configuration is fully
unchanged. -/
theorem claim_C8 (inp : ClideInit) (f : PromptFn) :
    (constructResult inp f).2.options = inp.config.options ∧
    (constructResult inp f).2 =
      { inp.config with commands := (constructResult inp f).2.commands } ∧
    (inp.config.disableHelp = true → (constructResult inp f).2 = inp.config) := by
  refine ⟨?_, ?_, ?_⟩
  · by_cases h : inp.config.disableHelp
    · simp [constructResult, h]
    · rcases hI : injectHelpOptions inp.config.options inp.config.commands with ⟨o', c', s'⟩
      simp [constructResult, h, hI]
  · by_cases h : inp.config.disableHelp
    · simp [constructResult, h]
    · rcases hI : injectHelpOptions inp.config.options inp.config.commands with ⟨o', c', s'⟩
      simp [constructResult, h, hI]
  · intro h
    simp only [constructResult]
    rw [if_pos h]

theorem claim_C8_witness :
    (constructResult { config := { disableHelp := true } } nullPrompt).2 =
      ({ disableHelp := true } : ClideConfig) :=
  (claim_C8 { config := { disableHelp := true } } nullPrompt).2.2 rfl

/-- Configuration declaring one command with no options, help enabled. -/
def cfgOneCommand : ClideConfig := { commands := [("build", { })] }

/-- Claim C8 counterexample: with help enabled (the default) and a command
`build` declaring no options, construction mutates the caller's command
descriptor: after construction the caller-visible `build` descriptor has an
auto-injected `help` option where the original had none, so the caller's
configuration state (specifically its command descriptors) is NOT unchanged
as the claim states. -/
theorem claim_C8_counterexample :
    ((recordGet (constructResult { config := cfgOneCommand } nullPrompt).2.commands
      "build").map (fun cmd => cmd.options.map Prod.fst)) = some ["help"] ∧
    ((recordGet cfgOneCommand.commands "build").map (fun cmd => cmd.options.map Prod.fst)) =
      some [] :=
  ⟨rfl, rfl⟩

/-- Claim C6: for a negatable boolean option, parsing the token `--no-<name>`
stores `<name> = false`, and parsing `--no-<name>=false` stores
`<name> = true` (double negation): the `no-` prefix is stripped and the
value inverted before storage. Stated for the program segment with the
default truthy/falsy literal sets. -/
theorem claim_C6 (ctx : ParserCtx) (p : ClideProgram) (n : String) (opt : ClideOption)
    (hlook : recordGet ctx.config.options n = some opt)
    (hno : recordGet ctx.config.options ("no-" ++ n) = none)
    (hbool : opt.type = OptionType.boolean) (hneg : opt.negatable = true)
    (hlow : jsToLower n = n) (hne : n ≠ "") (hnoeq : '=' ∉ n.data)
    (ht : ctx.truthyValues = ["true", "yes", "1"])
    (hf : ctx.falsyValues = ["false", "no", "0"]) :
    parseOptionsFromArgs ctx true ["--no-" ++ n] p =
      .ok (setProgramOption ("no-" ++ n) (.bool true) (some OptionScope.global) p) ∧
    recordGet (setProgramOption ("no-" ++ n) (.bool true)
      (some OptionScope.global) p).options n = some (.bool false) ∧
    parseOptionsFromArgs ctx true ["--no-" ++ n ++ "=false"] p =
      .ok (setProgramOption ("no-" ++ n) (.bool false) (some OptionScope.global) p) ∧
    recordGet (setProgramOption ("no-" ++ n) (.bool false)
      (some OptionScope.global) p).options n = some (.bool true) := by
  have hNlow : jsToLower ("no-" ++ n) = "no-" ++ n := by
    rw [jsToLower_append, hlow, show jsToLower "no-" = "no-" from rfl]
  have hNne : ("no-" ++ n) ≠ "" := by
    intro hEq
    have hd := congrArg String.data hEq
    rw [String.data_append] at hd
    simp at hd
  have hNnoeq : '=' ∉ ("no-" ++ n).data := by
    rw [String.data_append]
    intro hmem
    rcases List.mem_append.mp hmem with hmem1 | hmem2
    · exact absurd hmem1 (by decide)
    · exact hnoeq hmem2
  have hres : resolveOptionRef ctx true ("no-" ++ n) false p =
      { scope := some OptionScope.global, optionName := some ("no-" ++ n),
        option := some opt } := by
    have hr0 := getOption_program_long ctx p ("no-" ++ n) hNne hNlow
    have hr1 := getOption_program_long ctx p n hne hlow
    unfold resolveOptionRef
    simp only [Bool.false_eq_true, if_false, hr0, hno]
    simp only [strStartsWith_append, strDrop_no, hr1, hlook]
    simp [hbool, hneg]
  have hNsplit := eqSplit_of_not_mem ("no-" ++ n) hNnoeq
  have hstep1 : parseOneArg ctx true ("--" ++ ("no-" ++ n)) none p =
      .ok (setProgramOption ("no-" ++ n) (.bool true) (some OptionScope.global) p, false) := by
    have hhasEmpty : listHas ["true", "yes", "1", "false", "no", "0"] "" = false := rfl
    unfold parseOneArg mainOption applyValuePhase applyBooleanValue
    rw [strStartsWith_append, strDrop_dashdash]
    simp [hNsplit, hres, hNne, hbool, ht, hf, hhasEmpty]
  have harg1 : ("--no-" ++ n : String) = "--" ++ ("no-" ++ n) := by
    apply strEq_of_data
    simp [String.data_append]
  have hpart1 : parseOptionsFromArgs ctx true ["--no-" ++ n] p =
      .ok (setProgramOption ("no-" ++ n) (.bool true) (some OptionScope.global) p) := by
    rw [harg1, parseOptionsFromArgs]
    simp [hstep1, parseOptionsFromArgs]
  have hbl : boolLiteral ctx "false" = some false := by
    unfold boolLiteral
    rw [ht, hf]
    rfl
  have hMsplit : eqSplit (("no-" ++ n) ++ "=" ++ "false") = ("no-" ++ n, some "false") :=
    eqSplit_append ("no-" ++ n) "false" hNnoeq
  have hstep3 : parseOneArg ctx true ("--" ++ (("no-" ++ n) ++ "=" ++ "false")) none p =
      .ok (setProgramOption ("no-" ++ n) (.bool false) (some OptionScope.global) p, false) := by
    unfold parseOneArg mainOption applyValuePhase applyBooleanValue
    rw [strStartsWith_append, strDrop_dashdash]
    simp [hMsplit, hres, hNne, hbool, hbl]
  have harg3 : ("--no-" ++ n ++ "=false" : String) = "--" ++ (("no-" ++ n) ++ "=" ++ "false") := by
    apply strEq_of_data
    simp [String.data_append]
  have hpart3 : parseOptionsFromArgs ctx true ["--no-" ++ n ++ "=false"] p =
      .ok (setProgramOption ("no-" ++ n) (.bool false) (some OptionScope.global) p) := by
    rw [harg3, parseOptionsFromArgs]
    simp [hstep3, parseOptionsFromArgs]
  have hsw := strStartsWith_append "no-" n
  refine ⟨hpart1, ?_, hpart3, ?_⟩
  · rw [setProgramOption_options, writeKey_no_bool _ _ hsw, writeVal_no_bool _ _ hsw,
      strDrop_no, recordGet_recordSet_self]
    simp
  · rw [setProgramOption_options, writeKey_no_bool _ _ hsw, writeVal_no_bool _ _ hsw,
      strDrop_no, recordGet_recordSet_self]
    simp

/-- Configuration with one negatable boolean option named `flag`. -/
def cfgNegatable : ClideConfig :=
  { disableHelp := true, options := [("flag", { type := OptionType.boolean, negatable := true })] }

/-- Parser context for `cfgNegatable`. -/
def ctxNegatable : ParserCtx := { config := cfgNegatable }

theorem claim_C6_witness :
    parseOptionsFromArgs ctxNegatable true ["--no-" ++ "flag"] { } =
      .ok (setProgramOption ("no-" ++ "flag") (ClideValue.bool true)
        (some OptionScope.global) { }) ∧
    recordGet (setProgramOption ("no-" ++ "flag") (ClideValue.bool true)
      (some OptionScope.global) { }).options "flag" = some (ClideValue.bool false) := by
  have h := claim_C6 ctxNegatable { } "flag"
    { type := OptionType.boolean, negatable := true }
    rfl rfl rfl rfl rfl (by decide) (by decide) rfl rfl
  exact ⟨h.1, h.2.1⟩

theorem parseOneArg_long (ctx : ParserCtx) (isProgramArgs : Bool) (X : String)
    (nextArg : Option String) (p : ClideProgram) :
    parseOneArg ctx isProgramArgs ("--" ++ X) nextArg p =
      mainOption ctx isProgramArgs ("--" ++ X) X false nextArg p := by
  unfold parseOneArg
  rw [strStartsWith_append, strDrop_dashdash]
  simp

theorem boolLiteral_of_union (ctx : ParserCtx) (w : String)
    (hw : listHas (ctx.truthyValues ++ ctx.falsyValues) (jsToLower w) = true) :
    boolLiteral ctx w = some (listHas ctx.truthyValues (jsToLower w)) := by
  unfold boolLiteral
  by_cases hT : listHas ctx.truthyValues (jsToLower w)
  · simp [hT]
  · rw [listHas_append] at hw
    simp only [Bool.or_eq_true] at hw
    rcases hw with hw | hw
    · exact absurd hw hT
    · simp [hT, hw]

theorem boolLiteral_of_not_union (ctx : ParserCtx) (w : String)
    (hw : listHas (ctx.truthyValues ++ ctx.falsyValues) (jsToLower w) = false) :
    boolLiteral ctx w = none := by
  rw [listHas_append] at hw
  simp only [Bool.or_eq_false_iff] at hw
  unfold boolLiteral
  simp [hw.1, hw.2]

/-- Claim C7: for a boolean option, an explicit `=value`, or a following
token whose lower-casing lies in the configured truthy or falsy set, is
consumed as the option's value (coerced through the truthy set first); with
no such value, presence alone sets the option to true; a following token
outside both sets is not consumed — parsing continues with that token as a
fresh token against the program updated with `true`; and an explicit
`=value` outside both sets fails with the distinct boolean-literal error. -/
theorem claim_C7 (ctx : ParserCtx) (p : ClideProgram) (n : String) (opt : ClideOption)
    (hlook : recordGet ctx.config.options n = some opt)
    (hbool : opt.type = OptionType.boolean)
    (hlow : jsToLower n = n) (hne : n ≠ "") (hnoeq : '=' ∉ n.data) :
    (∀ w, listHas (ctx.truthyValues ++ ctx.falsyValues) (jsToLower w) = true →
      parseOptionsFromArgs ctx true ["--" ++ n, w] p =
        .ok (setProgramOption n (.bool (listHas ctx.truthyValues (jsToLower w)))
          (some OptionScope.global) p)) ∧
    (∀ w, listHas (ctx.truthyValues ++ ctx.falsyValues) (jsToLower w) = true →
      parseOptionsFromArgs ctx true ["--" ++ n ++ "=" ++ w] p =
        .ok (setProgramOption n (.bool (listHas ctx.truthyValues (jsToLower w)))
          (some OptionScope.global) p)) ∧
    (parseOptionsFromArgs ctx true ["--" ++ n] p =
      .ok (setProgramOption n (.bool true) (some OptionScope.global) p)) ∧
    (∀ w, listHas (ctx.truthyValues ++ ctx.falsyValues) (jsToLower w) = false →
      parseOptionsFromArgs ctx true ["--" ++ n, w] p =
        parseOptionsFromArgs ctx true [w]
          (setProgramOption n (.bool true) (some OptionScope.global) p)) ∧
    (∀ w, listHas (ctx.truthyValues ++ ctx.falsyValues) (jsToLower w) = false →
      parseOptionsFromArgs ctx true ["--" ++ n ++ "=" ++ w] p =
        .error ("Unknown boolean value \"" ++ w ++ "\". ")) := by
  have hres : resolveOptionRef ctx true n false p =
      { scope := some OptionScope.global, optionName := some n, option := some opt } := by
    have hr0 := getOption_program_long ctx p n hne hlow
    unfold resolveOptionRef
    simp only [Bool.false_eq_true, if_false, hr0, hlook]
    simp
  have hsplitN := eqSplit_of_not_mem n hnoeq
  have hmain : ∀ (arg : String) (nextArg : Option String),
      mainOption ctx true arg n false nextArg p =
        applyBooleanValue ctx n (some OptionScope.global) none nextArg p := by
    intro arg nextArg
    unfold mainOption applyValuePhase
    simp [hsplitN, hres, hne, hbool]
  have hmainEq : ∀ (arg w : String) (nextArg : Option String),
      mainOption ctx true arg (n ++ "=" ++ w) false nextArg p =
        applyBooleanValue ctx n (some OptionScope.global) (some w) nextArg p := by
    intro arg w nextArg
    have hs := eqSplit_append n w hnoeq
    unfold mainOption applyValuePhase
    simp [hs, hres, hne, hbool]
  have hargEq : ∀ w : String, ("--" ++ n ++ "=" ++ w : String) = "--" ++ (n ++ "=" ++ w) := by
    intro w
    apply strEq_of_data
    simp [String.data_append]
  refine ⟨?_, ?_, ?_, ?_, ?_⟩
  · intro w hw
    rw [parseOptionsFromArgs]
    simp only [List.head?]
    rw [parseOneArg_long, hmain]
    have hstep : applyBooleanValue ctx n (some OptionScope.global) none (some w) p =
        .ok (setProgramOption n (.bool (listHas ctx.truthyValues (jsToLower w)))
          (some OptionScope.global) p, true) := by
      unfold applyBooleanValue
      simp [hw, boolLiteral_of_union ctx w hw]
    rw [hstep]
    simp [parseOptionsFromArgs]
  · intro w hw
    rw [hargEq w, parseOptionsFromArgs]
    simp only [List.head?]
    rw [parseOneArg_long, hmainEq]
    have hstep : applyBooleanValue ctx n (some OptionScope.global) (some w) none p =
        .ok (setProgramOption n (.bool (listHas ctx.truthyValues (jsToLower w)))
          (some OptionScope.global) p, false) := by
      unfold applyBooleanValue
      simp [boolLiteral_of_union ctx w hw]
    rw [hstep]
    simp [parseOptionsFromArgs]
  · rw [parseOptionsFromArgs]
    simp only [List.head?]
    rw [parseOneArg_long, hmain]
    unfold applyBooleanValue
    by_cases hc : listHas (ctx.truthyValues ++ ctx.falsyValues) ""
    · simp [hc, parseOptionsFromArgs]
    · simp [hc, parseOptionsFromArgs]
  · intro w hw
    rw [parseOptionsFromArgs]
    simp only [List.head?]
    rw [parseOneArg_long, hmain]
    have hstep : applyBooleanValue ctx n (some OptionScope.global) none (some w) p =
        .ok (setProgramOption n (.bool true) (some OptionScope.global) p, false) := by
      unfold applyBooleanValue
      simp [hw]
    rw [hstep]
    simp
  · intro w hw
    rw [hargEq w, parseOptionsFromArgs]
    simp only [List.head?]
    rw [parseOneArg_long, hmainEq]
    have hstep : applyBooleanValue ctx n (some OptionScope.global) (some w) none p =
        .error ("Unknown boolean value \"" ++ w ++ "\". ") := by
      unfold applyBooleanValue
      simp [boolLiteral_of_not_union ctx w hw]
    simp [hstep]

/-- Configuration with one boolean option named `watch` (default literal
sets). -/
def cfgBoolWatch : ClideConfig :=
  { disableHelp := true, options := [("watch", { type := OptionType.boolean })] }

/-- Parser context for `cfgBoolWatch`. -/
def ctxBoolWatch : ParserCtx := { config := cfgBoolWatch }

theorem claim_C7_witness :
    parseOptionsFromArgs ctxBoolWatch true ["--" ++ "watch", "no"] { } =
      .ok (setProgramOption "watch"
        (ClideValue.bool (listHas ctxBoolWatch.truthyValues (jsToLower "no")))
        (some OptionScope.global) { }) ∧
    parseOptionsFromArgs ctxBoolWatch true ["--" ++ "watch" ++ "=" ++ "zzz"] { } =
      .error ("Unknown boolean value \"" ++ "zzz" ++ "\". ") := by
  have h := claim_C7 ctxBoolWatch { } "watch" { type := OptionType.boolean }
    rfl rfl rfl (by decide) (by decide)
  exact ⟨h.1 "no" rfl, h.2.2.2.2 "zzz" rfl⟩

theorem parse_single_bool_token (ctx : ParserCtx) (isProgramArgs : Bool) (p : ClideProgram)
    (n : String) (opt : ClideOption) (sc : Option OptionScope)
    (hres : resolveOptionRef ctx isProgramArgs n false p =
      { scope := sc, optionName := some n, option := some opt })
    (hne : n ≠ "") (hbool : opt.type = OptionType.boolean) (hnoeq : '=' ∉ n.data) :
    parseOptionsFromArgs ctx isProgramArgs ["--" ++ n] p =
      .ok (setProgramOption n (.bool true) sc p) := by
  have hsplitN := eqSplit_of_not_mem n hnoeq
  rw [parseOptionsFromArgs]
  simp only [List.head?]
  rw [parseOneArg_long]
  unfold mainOption applyValuePhase
  simp only [hsplitN, hres, hbool]
  unfold applyBooleanValue
  by_cases hc : listHas (ctx.truthyValues ++ ctx.falsyValues) ""
  · simp [hne, hc, parseOptionsFromArgs]
  · simp [hne, hc, parseOptionsFromArgs]

theorem parse_single_unknown_token (ctx : ParserCtx) (isProgramArgs : Bool) (p : ClideProgram)
    (n : String)
    (hres : resolveOptionRef ctx isProgramArgs n false p =
      { scope := none, optionName := some n, option := none })
    (hnoeq : '=' ∉ n.data) :
    parseOptionsFromArgs ctx isProgramArgs ["--" ++ n] p =
      .error ("Unknown option \"" ++ ("--" ++ n) ++ "\". ") := by
  have hsplitN := eqSplit_of_not_mem n hnoeq
  rw [parseOptionsFromArgs]
  simp only [List.head?]
  rw [parseOneArg_long]
  unfold mainOption
  simp [hsplitN, hres]

/-- Claim C10: when the active command is the configured default command,
option lookup for command-segment tokens consults the global option table
first and falls back to the command's own table, so a global flag resolves
with global scope and lands in `globalOptions`, and a command-only flag
still resolves with command scope and lands in `commandOptions`; for an
explicitly named (non-default) command, lookup consults only the command's
table, so a flag absent from it — in particular a global-only flag placed
after the command — fails as an unknown option. -/
theorem claim_C10 (ctx : ParserCtx) (p : ClideProgram) (c n : String) (opt : ClideOption)
    (hcmd : p.command = some c) (hc : c ≠ "")
    (hlow : jsToLower n = n) (hne : n ≠ "") (hnoeq : '=' ∉ n.data)
    (hnopre : strStartsWith n "no-" = false)
    (hbool : opt.type = OptionType.boolean) :
    (p.isDefaultCommand = true → recordGet ctx.config.options n = some opt →
      parseOptionsFromArgs ctx false ["--" ++ n] p =
        .ok (setProgramOption n (.bool true) (some OptionScope.global) p)) ∧
    (p.isDefaultCommand = true → recordGet ctx.config.options n = none →
      recordGet (activeCommandOptions ctx (some c)) n = some opt →
      parseOptionsFromArgs ctx false ["--" ++ n] p =
        .ok (setProgramOption n (.bool true) (some OptionScope.command) p)) ∧
    (p.isDefaultCommand = false → recordGet (activeCommandOptions ctx (some c)) n = none →
      parseOptionsFromArgs ctx false ["--" ++ n] p =
        .error ("Unknown option \"" ++ ("--" ++ n) ++ "\". ")) ∧
    recordGet (setProgramOption n (.bool true)
      (some OptionScope.global) p).globalOptions n = some (.bool true) ∧
    recordGet (setProgramOption n (.bool true)
      (some OptionScope.command) p).commandOptions n = some (.bool true) := by
  refine ⟨?_, ?_, ?_, ?_, ?_⟩
  · intro hdef hglob
    have hr0 := getOption_default_cmd_long ctx p n hne hlow c hcmd hc hdef
    have hres : resolveOptionRef ctx false n false p =
        { scope := some OptionScope.global, optionName := some n, option := some opt } := by
      unfold resolveOptionRef
      simp only [Bool.false_eq_true, if_false, hr0, hglob]
      try simp
    exact parse_single_bool_token ctx false p n opt (some OptionScope.global) hres hne hbool hnoeq
  · intro hdef hglob hcmdopt
    have hr0 := getOption_default_cmd_long ctx p n hne hlow c hcmd hc hdef
    have hres : resolveOptionRef ctx false n false p =
        { scope := some OptionScope.command, optionName := some n, option := some opt } := by
      unfold resolveOptionRef
      simp only [Bool.false_eq_true, if_false, hr0, hglob, hcmdopt]
      try simp
    exact parse_single_bool_token ctx false p n opt (some OptionScope.command) hres hne hbool hnoeq
  · intro hdef hcmdopt
    have hr0 := getOption_explicit_cmd_long ctx p n hne hlow c hcmd hc hdef
    have hres : resolveOptionRef ctx false n false p =
        { scope := none, optionName := some n, option := none } := by
      unfold resolveOptionRef
      simp only [Bool.false_eq_true, if_false, hr0, hcmdopt]
      try simp [hnopre]
    exact parse_single_unknown_token ctx false p n hres hnoeq
  · rw [setProgramOption_globalOptions, if_pos rfl, writeKey_of_not_no _ _ hnopre,
      writeVal_of_not_no _ _ hnopre, recordGet_recordSet_self]
  · rw [setProgramOption_commandOptions, if_pos rfl, writeKey_of_not_no _ _ hnopre,
      writeVal_of_not_no _ _ hnopre, recordGet_recordSet_self]

/-- Configuration with a default command `start` owning a `port` option and
a global `verbose` option. -/
def cfgDefaultStart : ClideConfig :=
  { disableHelp := true, defaultCommand := some "start",
    options := [("verbose", { type := OptionType.boolean })],
    commands := [("start", { options := [("port", { type := OptionType.boolean })] })] }

/-- Parser context for `cfgDefaultStart`. -/
def ctxDefaultStart : ParserCtx := { config := cfgDefaultStart }

/-- Program state as produced by the splitter for the default command. -/
def progDefaultStart : ClideProgram :=
  { command := some "start", isDefaultCommand := true }

theorem claim_C10_witness :
    parseOptionsFromArgs ctxDefaultStart false ["--" ++ "verbose"] progDefaultStart =
      .ok (setProgramOption "verbose" (ClideValue.bool true)
        (some OptionScope.global) progDefaultStart) ∧
    parseOptionsFromArgs ctxDefaultStart false ["--" ++ "port"] progDefaultStart =
      .ok (setProgramOption "port" (ClideValue.bool true)
        (some OptionScope.command) progDefaultStart) := by
  have h1 := claim_C10 ctxDefaultStart progDefaultStart "start" "verbose"
    { type := OptionType.boolean } rfl (by decide) rfl (by decide) (by decide) (by decide) rfl
  have h2 := claim_C10 ctxDefaultStart progDefaultStart "start" "port"
    { type := OptionType.boolean } rfl (by decide) rfl (by decide) (by decide) (by decide) rfl
  exact ⟨h1.1 rfl rfl, h2.2.1 rfl rfl rfl⟩

/-! Lemmas about the finalizer, for the precedence claim. -/

theorem no_append_ne (n : String) : ("no-" ++ n) ≠ n := by
  intro h
  have hlen := congrArg (fun s => s.data.length) h
  simp [String.data_append] at hlen
  omega

theorem coerceForType_typed (ctx : ParserCtx) (t : OptionType) (v : ClideValue)
    (h : valueHasType v t = true) : coerceForType ctx t v = some v := by
  cases v <;> cases t <;>
    simp_all [coerceForType, valueHasType, isBoolVal, isNumVal]

theorem applyDefaultsScan_append (ctx : ParserCtx) (sc : OptionScope) (cm : Option String)
    (l1 l2 : List (String × ClideOption)) (p : ClideProgram) (q : List String) :
    applyDefaultsScan ctx sc cm (l1 ++ l2) p q =
      match applyDefaultsScan ctx sc cm l1 p q with
      | .error e => .error e
      | .ok (p1, q1) => applyDefaultsScan ctx sc cm l2 p1 q1 := by
  induction l1 generalizing p q with
  | nil => simp [applyDefaultsScan]
  | cons e rest ih =>
    obtain ⟨m, o⟩ := e
    show applyDefaultsScan ctx sc cm ((m, o) :: (rest ++ l2)) p q = _
    rw [applyDefaultsScan]
    conv_rhs => rw [applyDefaultsScan]
    by_cases hset : (recordGet p.options m).isSome = true
    · rw [if_pos hset, if_pos hset, ih]
    · rw [if_neg hset, if_neg hset]
      cases hv : envDefaultValue ctx o
      · by_cases hreq : o.required = true
        · by_cases hdp : ctx.config.disablePrompts = true
          · simp [hreq, hdp]
          · simp [hreq, hdp, ih]
        · simp [hreq, ih]
      · simp [ih]

theorem applyDefaultsScan_frame (ctx : ParserCtx) (sc : OptionScope) (cm : Option String)
    (n : String) :
    ∀ (entries : List (String × ClideOption)) (p : ClideProgram) (q : List String)
      (p' : ClideProgram) (q' : List String),
      (∀ pr ∈ entries, pr.1 ≠ n ∧ pr.1 ≠ "no-" ++ n) →
      applyDefaultsScan ctx sc cm entries p q = .ok (p', q') →
      recordGet p'.options n = recordGet p.options n ∧ (n ∈ q' → n ∈ q) := by
  intro entries
  induction entries with
  | nil =>
    intro p q p' q' _ hscan
    unfold applyDefaultsScan at hscan
    simp at hscan
    obtain ⟨h1, h2⟩ := hscan
    subst h1
    subst h2
    exact ⟨rfl, fun h => h⟩
  | cons e rest ih =>
    obtain ⟨m, o⟩ := e
    intro p q p' q' hne hscan
    obtain ⟨hm1, hm2⟩ := hne (m, o) (by simp)
    have hrest : ∀ pr ∈ rest, pr.1 ≠ n ∧ pr.1 ≠ "no-" ++ n :=
      fun pr hpr => hne pr (by simp [hpr])
    unfold applyDefaultsScan at hscan
    by_cases hset : (recordGet p.options m).isSome = true
    · rw [if_pos hset] at hscan
      exact ih p q p' q' hrest hscan
    · rw [if_neg hset] at hscan
      cases hv : envDefaultValue ctx o with
      | some v =>
        rw [hv] at hscan
        have hres := ih (setProgramOption m v (some sc) p) q p' q' hrest hscan
        have hw : writeKey m v ≠ n := writeKey_ne m n v hm1 hm2
        rw [setProgramOption_options, recordGet_recordSet_ne _ _ _ _ hw] at hres
        exact hres
      | none =>
        rw [hv] at hscan
        by_cases hreq : o.required = true
        · rw [if_pos hreq] at hscan
          by_cases hdp : ctx.config.disablePrompts = true
          · rw [if_pos hdp] at hscan
            simp at hscan
          · rw [if_neg hdp] at hscan
            have hres := ih p (q ++ [m]) p' q' hrest hscan
            refine ⟨hres.1, fun hq' => ?_⟩
            rcases List.mem_append.mp (hres.2 hq') with h | h
            · exact h
            · simp at h
              exact absurd h.symm hm1
        · rw [if_neg hreq] at hscan
          exact ih p q p' q' hrest hscan

theorem applyDefaultsScan_queue_sub (ctx : ParserCtx) (sc : OptionScope) (cm : Option String) :
    ∀ (entries : List (String × ClideOption)) (p : ClideProgram) (q : List String)
      (p' : ClideProgram) (q' : List String),
      applyDefaultsScan ctx sc cm entries p q = .ok (p', q') →
      ∀ m ∈ q', m ∈ q ∨ ∃ o, (m, o) ∈ entries := by
  intro entries
  induction entries with
  | nil =>
    intro p q p' q' hscan m hm
    unfold applyDefaultsScan at hscan
    simp at hscan
    obtain ⟨h1, h2⟩ := hscan
    subst h2
    exact Or.inl hm
  | cons e rest ih =>
    obtain ⟨mk, o⟩ := e
    intro p q p' q' hscan m hm
    unfold applyDefaultsScan at hscan
    by_cases hset : (recordGet p.options mk).isSome = true
    · rw [if_pos hset] at hscan
      rcases ih p q p' q' hscan m hm with h | ⟨o', h⟩
      · exact Or.inl h
      · exact Or.inr ⟨o', by simp [h]⟩
    · rw [if_neg hset] at hscan
      cases hv : envDefaultValue ctx o with
      | some v =>
        rw [hv] at hscan
        rcases ih _ q p' q' hscan m hm with h | ⟨o', h⟩
        · exact Or.inl h
        · exact Or.inr ⟨o', by simp [h]⟩
      | none =>
        rw [hv] at hscan
        by_cases hreq : o.required = true
        · rw [if_pos hreq] at hscan
          by_cases hdp : ctx.config.disablePrompts = true
          · rw [if_pos hdp] at hscan
            simp at hscan
          · rw [if_neg hdp] at hscan
            rcases ih p (q ++ [mk]) p' q' hscan m hm with h | ⟨o', h⟩
            · rcases List.mem_append.mp h with h1 | h1
              · exact Or.inl h1
              · simp at h1
                exact Or.inr ⟨o, by simp [h1]⟩
            · exact Or.inr ⟨o', by simp [h]⟩
        · rw [if_neg hreq] at hscan
          rcases ih p q p' q' hscan m hm with h | ⟨o', h⟩
          · exact Or.inl h
          · exact Or.inr ⟨o', by simp [h]⟩

theorem promptQueueRun_frame (ctx : ParserCtx) (f : PromptFn) (sc : OptionScope) (n : String) :
    ∀ (queue : List String) (p p' : ClideProgram),
      (∀ m ∈ queue, m ≠ n ∧ m ≠ "no-" ++ n) →
      promptQueueRun ctx f sc queue p = .ok p' →
      recordGet p'.options n = recordGet p.options n := by
  intro queue
  induction queue with
  | nil =>
    intro p p' _ hrun
    unfold promptQueueRun at hrun
    simp at hrun
    rw [hrun]
  | cons m rest ih =>
    intro p p' hq hrun
    obtain ⟨hm1, hm2⟩ := hq m (by simp)
    have hrest : ∀ x ∈ rest, x ≠ n ∧ x ≠ "no-" ++ n := fun x hx => hq x (by simp [hx])
    unfold promptQueueRun at hrun
    rcases hgo : getOption ctx p (some m) none (sc = OptionScope.global) with ⟨rsc, rname, ropt⟩
    rw [hgo] at hrun
    cases ropt with
    | none =>
      cases rname <;> exact ih p p' hrest hrun
    | some option =>
      cases rname with
      | none => exact ih p p' hrest hrun
      | some rn =>
        replace hrun :
            (if rn = "" then promptQueueRun ctx f sc rest p
             else
               match validateOption option rn (f rn option rsc p) with
               | Except.error e => Except.error e
               | Except.ok _ => promptQueueRun ctx f sc rest
                   (setProgramOption m (f rn option rsc p) (some sc) p)) = Except.ok p' := hrun
        by_cases hrn : rn = ""
        · rw [if_pos hrn] at hrun
          exact ih p p' hrest hrun
        · rw [if_neg hrn] at hrun
          cases hvv : validateOption option rn (f rn option rsc p) with
          | error e =>
            rw [hvv] at hrun
            simp at hrun
          | ok u =>
            rw [hvv] at hrun
            have hres := ih (setProgramOption m (f rn option rsc p) (some sc) p) p' hrest hrun
            have hw : writeKey m (f rn option rsc p) ≠ n :=
              writeKey_ne m n _ hm1 hm2
            rw [setProgramOption_options, recordGet_recordSet_ne _ _ _ _ hw] at hres
            exact hres

theorem finalizeNoPrompts_ok (cm : Option String) (q1 q2 : List String) (p2 p' : ClideProgram)
    (h : finalizeNoPrompts cm q1 q2 p2 = .ok p') : p' = p2 := by
  unfold finalizeNoPrompts at h
  by_cases hq1 : q1 = []
  · by_cases hq2 : q2 = []
    · simp [hq1, hq2] at h
      exact h.symm
    · simp [hq1, hq2] at h
  · simp [hq1] at h

theorem finalizeOptions_ok_decomp (ctx : ParserCtx) (p p' : ClideProgram)
    (h : finalizeOptions ctx p = .ok p') :
    ∃ p1 q1 q2,
      applyDefaultsScan ctx OptionScope.global p.command ctx.config.options p [] =
        .ok (p1, q1) ∧
      ∃ p2, applyDefaultsScan ctx OptionScope.command p.command
          (activeCommandOptions ctx p.command) p1 [] = .ok (p2, q2) ∧
        (p' = p2 ∨
          ∃ f p3, ctx.config.promptAsync = some f ∧
            promptQueueRun ctx f OptionScope.global q1 p2 = .ok p3 ∧
            promptQueueRun ctx f OptionScope.command q2 p3 = .ok p') := by
  unfold finalizeOptions at h
  cases h1 : applyDefaultsScan ctx OptionScope.global p.command ctx.config.options p [] with
  | error e =>
    rw [h1] at h
    dsimp only [] at h
    simp at h
  | ok pq1 =>
    obtain ⟨p1, q1⟩ := pq1
    rw [h1] at h
    dsimp only [] at h
    cases h2 : applyDefaultsScan ctx OptionScope.command p.command
        (activeCommandOptions ctx p.command) p1 [] with
    | error e =>
      rw [h2] at h
      dsimp only [] at h
      simp at h
    | ok pq2 =>
      obtain ⟨p2, q2⟩ := pq2
      rw [h2] at h
      dsimp only [] at h
      refine ⟨p1, q1, q2, rfl, p2, h2, ?_⟩
      cases h3 : validateEntriesLoop ctx p2 true p2.globalOptions with
      | error e =>
        rw [h3] at h
        dsimp only [] at h
        simp at h
      | ok u =>
        rw [h3] at h
        dsimp only [] at h
        cases h4 : validateEntriesLoop ctx p2 false p2.commandOptions with
        | error e =>
          rw [h4] at h
          dsimp only [] at h
          simp at h
        | ok u2 =>
          rw [h4] at h
          dsimp only [] at h
          by_cases hdp : ctx.config.disablePrompts = true
          · rw [if_pos hdp] at h
            exact Or.inl (finalizeNoPrompts_ok _ _ _ _ _ h)
          · rw [if_neg hdp] at h
            cases hpa : ctx.config.promptAsync with
            | none =>
              rw [hpa] at h
              dsimp only [] at h
              exact Or.inl (finalizeNoPrompts_ok _ _ _ _ _ h)
            | some f =>
              rw [hpa] at h
              dsimp only [] at h
              cases h5 : promptQueueRun ctx f OptionScope.global q1 p2 with
              | error e =>
                rw [h5] at h
                dsimp only [] at h
                simp at h
              | ok p3 =>
                rw [h5] at h
                dsimp only [] at h
                exact Or.inr ⟨f, p3, rfl, h5, h⟩

/-- Claim C4: for a declared global option with both an `env` binding and a
`default`, resolution precedence is: a value already supplied by a flag
survives finalization untouched; with no flag but the environment variable
present, the stored result is the type-coerced environment value; with
neither, the stored result is the declared default. The hypotheses require
the other declared names not to collide with the option's name or its
`no-`-normalised alias (which is the case for every validator-accepted
configuration without a doubled `no-` prefix). -/
theorem claim_C4 (ctx : ParserCtx) (p p' : ClideProgram) (n e : String) (opt : ClideOption)
    (pre post : List (String × ClideOption)) (d : ClideValue)
    (hopts : ctx.config.options = pre ++ (n, opt) :: post)
    (hpre : ∀ pr ∈ pre, pr.1 ≠ n ∧ pr.1 ≠ "no-" ++ n)
    (hpost : ∀ pr ∈ post, pr.1 ≠ n ∧ pr.1 ≠ "no-" ++ n)
    (hnopre : strStartsWith n "no-" = false)
    (hcmdopts : ∀ pr ∈ activeCommandOptions ctx p.command, pr.1 ≠ n ∧ pr.1 ≠ "no-" ++ n)
    (henv : opt.env = some e) (hene : e ≠ "") (hdefault : opt.default = some d)
    (hfin : finalizeOptions ctx p = .ok p') :
    (∀ v, recordGet p.options n = some v → recordGet p'.options n = some v) ∧
    (∀ s cv, recordGet p.options n = none → recordGet ctx.env e = some s →
      coerceForType ctx opt.type (.str s) = some cv → recordGet p'.options n = some cv) ∧
    (recordGet p.options n = none → recordGet ctx.env e = none →
      valueHasType d opt.type = true → recordGet p'.options n = some d) := by
  obtain ⟨p1, q1, q2, h1, p2, h2, hrest⟩ := finalizeOptions_ok_decomp ctx p p' hfin
  have hframe2 := applyDefaultsScan_frame ctx OptionScope.command p.command n
    (activeCommandOptions ctx p.command) p1 [] p2 q2 hcmdopts h2
  have hq1sub := applyDefaultsScan_queue_sub ctx OptionScope.global p.command
    ctx.config.options p [] p1 q1 h1
  have hq2sub := applyDefaultsScan_queue_sub ctx OptionScope.command p.command
    (activeCommandOptions ctx p.command) p1 [] p2 q2 h2
  have hq1nn : ∀ m ∈ q1, m ≠ "no-" ++ n := by
    intro m hm
    rcases hq1sub m hm with h | ⟨o, ho⟩
    · simp at h
    · rw [hopts] at ho
      rcases List.mem_append.mp ho with hh | hh
      · exact (hpre _ hh).2
      · rcases List.mem_cons.mp hh with hh | hh
        · have hmn : m = n := by
            have := congrArg Prod.fst hh
            simpa using this
          rw [hmn]
          exact Ne.symm (no_append_ne n)
        · exact (hpost _ hh).2
  have hq2no : ∀ m ∈ q2, m ≠ n ∧ m ≠ "no-" ++ n := by
    intro m hm
    rcases hq2sub m hm with h | ⟨o, ho⟩
    · simp at h
    · exact hcmdopts _ ho
  have htail : (n ∈ q1 → False) → recordGet p'.options n = recordGet p2.options n := by
    intro hn1
    rcases hrest with rfl | ⟨f, p3, hpa, h5, h6⟩
    · rfl
    · have hq1ok : ∀ m ∈ q1, m ≠ n ∧ m ≠ "no-" ++ n :=
        fun m hm => ⟨fun hEq => hn1 (hEq ▸ hm), hq1nn m hm⟩
      have e5 := promptQueueRun_frame ctx f OptionScope.global n q1 p2 p3 hq1ok h5
      have e6 := promptQueueRun_frame ctx f OptionScope.command n q2 p3 p' hq2no h6
      rw [e6, e5]
  rw [hopts, applyDefaultsScan_append] at h1
  cases hpa1 : applyDefaultsScan ctx OptionScope.global p.command pre p [] with
  | error e' =>
    rw [hpa1] at h1
    simp at h1
  | ok pq =>
    obtain ⟨pa, qa⟩ := pq
    rw [hpa1] at h1
    dsimp only [] at h1
    have hframe0 := applyDefaultsScan_frame ctx OptionScope.global p.command n pre p [] pa qa
      hpre hpa1
    have hcommon : ∀ val : ClideValue, recordGet p.options n = none →
        envDefaultValue ctx opt = some val → recordGet p'.options n = some val := by
      intro val hv hEv
      have hsetn : recordGet pa.options n = none := by rw [hframe0.1, hv]
      unfold applyDefaultsScan at h1
      rw [if_neg (by simp [hsetn]), hEv] at h1
      dsimp only [] at h1
      have hwrite : recordGet (setProgramOption n val
          (some OptionScope.global) pa).options n = some val := by
        rw [setProgramOption_options, writeKey_of_not_no _ _ hnopre,
          writeVal_of_not_no _ _ hnopre, recordGet_recordSet_self]
      have hframeP := applyDefaultsScan_frame ctx OptionScope.global p.command n post
        (setProgramOption n val (some OptionScope.global) pa) qa p1 q1 hpost h1
      have hn1 : n ∈ q1 → False := fun hq =>
        (by simp : n ∉ ([] : List String)) (hframe0.2 (hframeP.2 hq))
      rw [htail hn1, hframe2.1, hframeP.1, hwrite]
    refine ⟨?_, ?_, ?_⟩
    · intro v hv
      have hset : recordGet pa.options n = some v := by rw [hframe0.1, hv]
      unfold applyDefaultsScan at h1
      rw [if_pos (by simp [hset])] at h1
      have hframeP := applyDefaultsScan_frame ctx OptionScope.global p.command n post pa qa
        p1 q1 hpost h1
      have hn1 : n ∈ q1 → False := fun hq =>
        (by simp : n ∉ ([] : List String)) (hframe0.2 (hframeP.2 hq))
      rw [htail hn1, hframe2.1, hframeP.1, hset]
    · intro s cv hv hs hcv
      have hEv : envDefaultValue ctx opt = some cv := by
        unfold envDefaultValue
        rw [henv]
        simp [hene, hs, hcv]
      exact hcommon cv hv hEv
    · intro hv hsnone htyped
      have hEv : envDefaultValue ctx opt = some d := by
        unfold envDefaultValue
        rw [henv]
        simp [hene, hsnone, hdefault, coerceForType_typed ctx opt.type d htyped]
      exact hcommon d hv hEv

/-- An option with both an environment binding and a default. -/
def optC4 : ClideOption :=
  { type := OptionType.string, env := some "APP_MODE", default := some (.str "prod") }

/-- Parser context declaring only `mode` (help disabled, empty
environment). -/
def ctxC4 : ParserCtx := { config := { disableHelp := true, options := [("mode", optC4)] } }

/-- The finalized program for `ctxC4` from an empty parse. -/
def progC4 : ClideProgram :=
  { options := [("mode", ClideValue.str "prod")],
    globalOptions := [("mode", ClideValue.str "prod")] }

theorem claim_C4_witness :
    recordGet progC4.options "mode" = some (ClideValue.str "prod") :=
  (claim_C4 ctxC4 { } progC4 "mode" "APP_MODE" optC4 [] [] (ClideValue.str "prod")
    rfl (by simp) (by simp) (by decide)
    (by intro pr hpr; simp [activeCommandOptions, recordGet] at hpr)
    rfl (by decide) rfl rfl).2.2 rfl rfl rfl

end Clide
